import Mathlib

/-!
Verification of the FMU-explore session layer of BPL_TEST2_Chemostat.

The development shallowly embeds the parameter-registry and session-controller
logic of the three near-duplicate scripts:
  * `BPL_TEST2_Chemostat_fmpy_explore.py`  (stateless FMPy backend, marker `_start`)
  * `BPL_TEST2_Chemostat_explore.py`       (stateful PyFMI backend, marker `_0`)
Python dictionaries are modelled as association lists where a later binding
shadows an earlier one (`dget` searches from the right), numbers as rationals,
and the opaque simulation unit as an oracle supplied to the session functions.
-/

/-- Association-list dictionary with Python semantics: the value of a key is
the value of its most recent binding. -/
abbrev Dict (α : Type) := List (String × α)

/-- Python dictionary lookup: the latest binding wins. -/
def dget {α : Type} : Dict α → String → Option α
  | [], _ => none
  | kv :: rest, k =>
    match dget rest k with
    | some v => some v
    | none => if kv.1 = k then some kv.2 else none

/-- The raw key column of a dictionary (with repetitions). -/
def keysOf {α : Type} (d : Dict α) : List String := d.map Prod.fst

/-- Python `d.keys()`: each key once, in first-insertion order. -/
def dkeys {α : Type} (d : Dict α) : List String := (d.map Prod.fst).dedup

/-- Python substring test `pat in s`, on character lists. -/
def listStartsWith : List Char → List Char → Bool
  | [], _ => true
  | _ :: _, [] => false
  | a :: as, b :: bs => a = b && listStartsWith as bs

def listHasSub (p : List Char) : List Char → Bool
  | [] => p.isEmpty
  | c :: rest => listStartsWith p (c :: rest) || listHasSub p rest

def strHasSub (pat s : String) : Bool := listHasSub pat.data s.data

/-- Python string comparison `s1 < s2`: lexicographic by code point, a
proper prefix comparing smaller. -/
def listLexLt : List Char → List Char → Bool
  | [], [] => false
  | [], _ :: _ => true
  | _ :: _, [] => false
  | a :: as, b :: bs => if a = b then listLexLt as bs else decide (a < b)

def strLexLt (s1 s2 : String) : Bool := listLexLt s1.data s2.data

/-- Python slice `s[-n:]` (the whole string when `n` exceeds the length). -/
def pyTail (s : String) (n : Nat) : String :=
  String.mk (s.data.drop (s.data.length - n))

/-- Python slice `s[:-n]` (empty when `n` exceeds the length). -/
def pyCut (s : String) (n : Nat) : String :=
  String.mk (s.data.take (s.data.length - n))

/-- Python index `s[-n]` for `n ≥ 1`, `none` when out of range. -/
def pyCharFromEnd (s : String) (n : Nat) : Option Char :=
  s.data.reverse.get? (n - 1)

/-- The rational `n / d` in lowest terms, written as a raw constructor so
that it evaluates inside the kernel. -/
def mkq (n : Int) (d : Nat) (h1 : d ≠ 0 := by decide)
    (h2 : n.natAbs.Coprime d := by decide) : ℚ := ⟨n, d, h1, h2⟩

/-- A Python value stored in `parDict` / `stateDict`: a number, `np.nan`,
`None`, a string, or a boolean. -/
inductive Value : Type
  | num (x : ℚ)
  | nanV
  | noneV
  | str (s : String)
  | bool (b : Bool)
  deriving DecidableEq

/-- The missing-value sentinel test `parDict[key] in [np.nan, None, '']` of
`simu` in `BPL_TEST2_Chemostat_explore.py` (lines 586-591). -/
def isSentinelValue : Value → Bool
  | Value.nanV => true
  | Value.noneV => true
  | Value.str s => s = ""
  | _ => false

/-- Derived initial-value path of a state, `BPL_TEST2_Chemostat_fmpy_explore.py`
lines 124-141 (the loop that fills `stateDictInitial`): bracketed 1-3 digit
index gets `_start` spliced before it; a path ending in `I.y` or `D.x` loses
its last ten characters and gains `I_start` / `D_start`; otherwise `_start`
is appended; indices wider than 3 digits are unsupported (`none`). -/
def stateDictInitialKey (key : String) : Option String :=
  if ¬ (pyCharFromEnd key 1 = some ']') then
    if pyTail key 3 = "I.y" then some (pyCut key 10 ++ "I_start")
    else if pyTail key 3 = "D.x" then some (pyCut key 10 ++ "D_start")
    else some (key ++ "_start")
  else if pyCharFromEnd key 3 = some '[' then
    some (pyCut key 3 ++ "_start" ++ pyTail key 3)
  else if pyCharFromEnd key 4 = some '[' then
    some (pyCut key 4 ++ "_start" ++ pyTail key 4)
  else if pyCharFromEnd key 5 = some '[' then
    some (pyCut key 5 ++ "_start" ++ pyTail key 5)
  else none

/-- Same rule with marker `_0`, inlined in the `cont` branch of `simu` in
`BPL_TEST2_Chemostat_explore.py` (lines 616-631). -/
def stateInitialKey0 (key : String) : Option String :=
  if ¬ (pyCharFromEnd key 1 = some ']') then
    if pyTail key 3 = "I.y" then some (pyCut key 10 ++ "I_0")
    else if pyTail key 3 = "D.x" then some (pyCut key 10 ++ "D_0")
    else some (key ++ "_0")
  else if pyCharFromEnd key 3 = some '[' then
    some (pyCut key 3 ++ "_0" ++ pyTail key 3)
  else if pyCharFromEnd key 4 = some '[' then
    some (pyCut key 4 ++ "_0" ++ pyTail key 4)
  else if pyCharFromEnd key 5 = some '[' then
    some (pyCut key 5 ++ "_0" ++ pyTail key 5)
  else none

/-- The module-level loop building `stateDictInitial` from the state keys;
mirrors the `break` on an unsupported index width (the remaining keys are
dropped and the overflow message is printed, flag `true`). -/
def buildSDI : List String → Dict String × Bool
  | [] => ([], false)
  | k :: ks =>
    match stateDictInitialKey k with
    | some p =>
      let r := buildSDI ks
      ((k, p) :: r.1, r.2)
    | none => ([], true)

/-- A validity requirement of `parCheck`: `parDict[k] > 0`, `parDict[k] >= 0`
or `parDict[k1] < parDict[k2]` (the only three shapes occurring in the
scripts). -/
inductive ParReq : Type
  | gt0 (key : String)
  | ge0 (key : String)
  | ltKeys (k1 k2 : String)
  deriving DecidableEq

/-- Numeric view of a value for a Python comparison; `none` models the
`TypeError` a string or `None` operand would raise. Booleans compare as
0/1, as in Python. -/
def valNum : Value → Option ℚ
  | Value.num x => some x
  | Value.bool b => some (if b then 1 else 0)
  | _ => none

/-- Evaluation of one `parCheck` requirement string against the registry.
`none` models a raised exception: a missing key (`KeyError`) or a
comparison Python rejects with `TypeError` (a string or `None` against a
number, including against `np.nan`).  As in Python, `np.nan` compares
false against any number — including `nan < nan`, which is `False` — and
two strings compare lexicographically without raising. -/
def evalReq (pd : Dict Value) : ParReq → Option Bool
  | ParReq.gt0 k =>
    match dget pd k with
    | some Value.nanV => some false
    | some v => (valNum v).map (fun x => decide (0 < x))
    | none => none
  | ParReq.ge0 k =>
    match dget pd k with
    | some Value.nanV => some false
    | some v => (valNum v).map (fun x => decide (0 ≤ x))
    | none => none
  | ParReq.ltKeys a b =>
    match dget pd a, dget pd b with
    | some Value.nanV, some Value.nanV => some false
    | some Value.nanV, some w => (valNum w).map (fun _ => false)
    | some v, some Value.nanV => (valNum v).map (fun _ => false)
    | some (Value.str s1), some (Value.str s2) => some (strLexLt s1 s2)
    | some v, some w =>
      match valNum v, valNum w with
      | some x, some y => some (decide (x < y))
      | _, _ => none
    | _, _ => none

/-- Result of `par()`: the updated registry, the rejected keys reported as
unknown, the requirements reported as violated, and whether evaluating a
requirement raised (in which case nothing is reported). -/
structure ParOut where
  parDict : Dict Value
  unknown : List String
  reqErrors : List ParReq
  evalCrash : Bool
  deriving DecidableEq

/-- `par()` of `BPL_TEST2_Chemostat_explore.py` lines 487-501 (identical in
the fmpy variant, lines 500-514): keys present in `parDict` are staged and
merged, unknown keys are reported non-fatally, then every `parCheck`
requirement is evaluated on the merged registry and the failing ones are
reported. -/
def par (parCheck : List ParReq) (pd : Dict Value) (kw : Dict Value) : ParOut :=
  let xtemp := kw.filter (fun kv => decide (kv.1 ∈ dkeys pd))
  let unknown := (dkeys kw).filter (fun k => ¬ decide (k ∈ dkeys pd))
  let merged := pd ++ xtemp
  if parCheck.all (fun q => (evalReq merged q).isSome) then
    ⟨merged, unknown, parCheck.filter (fun q => decide (evalReq merged q = some false)), false⟩
  else
    ⟨merged, unknown, [], true⟩

/-- Result of `init()`: the updated registry and the rejected keys. -/
structure InitOut where
  parDict : Dict Value
  rejected : List String
  deriving DecidableEq

/-- `init()` of the scripts (`BPL_TEST2_Chemostat_fmpy_explore.py` lines
517-527 with marker `_start`; `BPL_TEST2_Chemostat_explore.py` lines 504-514
with marker `_0`): a keyword is merged whenever its name contains the marker
substring, with no membership check against the declared keys. -/
def initU (marker : String) (pd : Dict Value) (kw : Dict Value) : InitOut :=
  let xinit := kw.filter (fun kv => strHasSub marker kv.1)
  let rejected := (dkeys kw).filter (fun k => ¬ strHasSub marker k)
  ⟨pd ++ xinit, rejected⟩

/-- Default `parDict` of `BPL_TEST2_Chemostat_explore.py` (lines 140-159). -/
def parDictP : Dict Value :=
  [("V_0", Value.num 1), ("VX_0", Value.num 1), ("VS_0", Value.num 30),
   ("Y", Value.num (mkq 1 2)), ("qSmax", Value.num (mkq 3 4)),
   ("Ks", Value.num (mkq 1 10)),
   ("S_in", Value.num 30), ("feedtank.V_0", Value.num 100),
   ("t0", Value.num 0), ("F0", Value.num 0),
   ("t1", Value.num 10), ("F1", Value.num (mkq 1 5)),
   ("t2", Value.num 999), ("F2", Value.num (mkq 1 5)),
   ("t3", Value.num 1000), ("F3", Value.num (mkq 1 5))]

/-- Default `parLocation` of `BPL_TEST2_Chemostat_explore.py` (lines 161-182),
including the `describe()`-only entry `mu`. -/
def parLocationP : Dict String :=
  [("V_0", "bioreactor.V_0"), ("VX_0", "bioreactor.m_0[1]"), ("VS_0", "bioreactor.m_0[2]"),
   ("Y", "bioreactor.culture.Y"), ("qSmax", "bioreactor.culture.qSmax"),
   ("Ks", "bioreactor.culture.Ks"),
   ("S_in", "feedtank.c_in[2]"), ("feedtank.V_0", "feedtank.V_0"),
   ("t0", "dosagescheme.table[1,1]"), ("F0", "dosagescheme.table[1,2]"),
   ("t1", "dosagescheme.table[2,1]"), ("F1", "dosagescheme.table[2,2]"),
   ("t2", "dosagescheme.table[3,1]"), ("F2", "dosagescheme.table[3,2]"),
   ("t3", "dosagescheme.table[4,1]"), ("F3", "dosagescheme.table[4,2]"),
   ("mu", "bioreactor.culture.mu")]

/-- `parCheck` of `BPL_TEST2_Chemostat_explore.py` (lines 185-193). -/
def parCheckP : List ParReq :=
  [ParReq.gt0 "Y", ParReq.gt0 "qSmax", ParReq.gt0 "Ks",
   ParReq.gt0 "V_0", ParReq.ge0 "VX_0",
   ParReq.ltKeys "t0" "t1", ParReq.ltKeys "t1" "t2", ParReq.ltKeys "t2" "t3"]

/-- Default `parDict` of `BPL_TEST2_Chemostat_fmpy_explore.py` (lines 148-167). -/
def parDictF : Dict Value :=
  [("V_start", Value.num 1), ("VX_start", Value.num 1), ("VS_start", Value.num 30),
   ("Y", Value.num (mkq 1 2)), ("qSmax", Value.num (mkq 3 4)),
   ("Ks", Value.num (mkq 1 10)),
   ("S_in", Value.num 30), ("feedtank.V_start", Value.num 100),
   ("t0", Value.num 0), ("F0", Value.num 0),
   ("t1", Value.num 10), ("F1", Value.num (mkq 1 5)),
   ("t2", Value.num 999), ("F2", Value.num (mkq 1 5)),
   ("t3", Value.num 1000), ("F3", Value.num (mkq 1 5))]

/-- Default `parLocation` of `BPL_TEST2_Chemostat_fmpy_explore.py`
(lines 169-191), including the `describe()`-only entry `mu`. -/
def parLocationF : Dict String :=
  [("V_start", "bioreactor.V_start"), ("VX_start", "bioreactor.m_start[1]"),
   ("VS_start", "bioreactor.m_start[2]"),
   ("Y", "bioreactor.culture.Y"), ("qSmax", "bioreactor.culture.qSmax"),
   ("Ks", "bioreactor.culture.Ks"),
   ("S_in", "feedtank.c_in[2]"), ("feedtank.V_start", "feedtank.V_start"),
   ("t0", "schemePumps.table[1,1]"), ("F0", "schemePumps.table[1,2]"),
   ("t1", "schemePumps.table[2,1]"), ("F1", "schemePumps.table[2,2]"),
   ("t2", "schemePumps.table[3,1]"), ("F2", "schemePumps.table[3,2]"),
   ("t3", "schemePumps.table[4,1]"), ("F3", "schemePumps.table[4,2]"),
   ("mu", "bioreactor.culture.mu")]

/-- `parCheck` of `BPL_TEST2_Chemostat_fmpy_explore.py` (lines 195-203). -/
def parCheckF : List ParReq :=
  [ParReq.gt0 "Y", ParReq.gt0 "qSmax", ParReq.gt0 "Ks",
   ParReq.gt0 "V_start", ParReq.ge0 "VX_start",
   ParReq.ltKeys "t0" "t1", ParReq.ltKeys "t1" "t2", ParReq.ltKeys "t2" "t3"]

/-- Metadata of one FMU variable from `model_description.modelVariables`. -/
structure VarMeta where
  name : String
  causality : String
  variability : String
  start : Option ℚ
  deriving DecidableEq

/-- Result of `simulate_fmu`: the logged sample series keyed by variable
path, including the `"time"` series. -/
structure SimRes where
  series : Dict (List ℚ)
  deriving DecidableEq

/-- First sample of the `"time"` series of a result. -/
def timeHead (r : SimRes) : Option ℚ := (dget r.series "time").bind List.head?

/-- Last sample of the `"time"` series of a result, `sim_res['time'][-1]`. -/
def timeLast (r : SimRes) : Option ℚ := (dget r.series "time").bind List.getLast?

/-- `model_get()` of `BPL_TEST2_Chemostat_fmpy_explore.py` lines 530-556:
scan the metadata for the path (the last match wins, as in the Python loop);
constants and parameters come from the declared start value, calculated
parameters from the first sample, keys present in the current `start_values`
from there, continuous variables from the last logged sample (`Value.noneV`
with a printed note when not logged), anything else is `None`.  `none`
models an uncaught exception (no metadata match, or a missing float). -/
def model_get (md : List VarMeta) (sres : SimRes) (sv : Dict Value)
    (parLoc : String) : Option Value :=
  md.foldl
    (fun acc v =>
      if v.name = parLoc then
        if v.causality = "local" ∧ v.variability = "constant" then
          (v.start).map Value.num
        else if v.causality = "parameter" then
          (v.start).map Value.num
        else if v.causality = "calculatedParameter" then
          ((dget sres.series v.name).bind List.head?).map Value.num
        else if (dget sv v.name).isSome then
          dget sv v.name
        else if v.variability = "continuous" then
          some (match (dget sres.series v.name).bind List.getLast? with
                | some x => Value.num x
                | none => Value.noneV)
        else
          some Value.noneV
      else acc)
    none

/-- The stateless backend of the fmpy variant: one `simulate_fmu` call taking
start time, stop time and the explicit start-value dictionary; an `error`
models a raised simulation exception. -/
structure FBackend where
  run : ℚ → ℚ → Dict Value → Except Unit SimRes

/-- Session state of the fmpy variant: the registry, the state table
(`None`-valued until first run) and the clock global `prevFinalTime`
(`none` while the global is still undefined). -/
structure SessionF where
  parDict : Dict Value
  parLocation : Dict String
  stateDict : Dict Value
  prevFinalTime : Option ℚ
  deriving DecidableEq

/-- Python exceptions the session layer can propagate. -/
inductive PyErr : Type
  | nameError
  | keyError
  | indexError
  | backendError
  deriving DecidableEq

/-- Diagnostics printed by `simu` (both variants). -/
inductive RunMsg : Type
  | ordering
  | badMode
  | noSim
  | missing (key : String)
  | overflow
  deriving DecidableEq

/-- Outcome of one `simu` call: normal completion with the result handed to
plotting, normal return without a simulation, or a propagated exception. -/
inductive FOutcome : Type
  | ok (res : SimRes)
  | finished
  | raised (e : PyErr)
  deriving DecidableEq

/-- Full observable behaviour of one fmpy `simu` call: final session state,
the `simulate_fmu` invocations (start, stop, start values), the printed
diagnostics, and the outcome. -/
structure FResult where
  state : SessionF
  calls : List (ℚ × ℚ × Dict Value)
  printed : List RunMsg
  outcome : FOutcome
  deriving DecidableEq

/-- `{pl[k]: pd[k] for k in keys}` evaluated left to right; `none` models the
`KeyError` raised when a key has no entry in `pl`. -/
def resolveList (pd : Dict Value) (pl : Dict String) :
    List String → Option (Dict Value)
  | [] => some []
  | k :: ks =>
    match dget pl k with
    | none => none
    | some loc =>
      (resolveList pd pl ks).map
        (fun rest => (loc, (dget pd k).getD Value.noneV) :: rest)

/-- Start values of a fresh run,
`{parLocation[k]: parDict[k] for k in parDict.keys()}`. -/
def freshStartValues (s : SessionF) : Option (Dict Value) :=
  resolveList s.parDict s.parLocation (dkeys s.parDict)

/-- `all parDict keys resolve in parLocation` (the `KeyError` guard for the
deduplication loop of the `cont` branch). -/
def allResolvable (pd : Dict Value) (pl : Dict String) : Bool :=
  (dkeys pd).all (fun k => (dget pl k).isSome)

/-- Is registry key `k` removed by the deduplication loop, i.e. does its
resolved location coincide with a derived initial-value path? -/
def delPred (pl : Dict String) (sdiVals : List String) (k : String) : Bool :=
  match dget pl k with
  | some loc => decide (loc ∈ sdiVals)
  | none => false

/-- Start values of a continuation run, `BPL_TEST2_Chemostat_fmpy_explore.py`
lines 674-687: remove every registry key whose resolved path is a derived
initial-value path, extend the location map by the identity on derived paths
(`stateDictInitialLoc`), append the captured state values keyed by their
derived paths, and resolve.  `none` models a `KeyError` (unresolvable
registry key, or a state key dropped by the overflow `break`). -/
def sdiOf (s : SessionF) : Dict String := (buildSDI (dkeys s.stateDict)).1

/-- `stateDictInitial.values()`. -/
def sdiValsOf (s : SessionF) : List String := (sdiOf s).map Prod.snd

/-- `parDictRed`: the registry without the keys whose resolved path is a
derived initial-value path. -/
def parDictRedOf (s : SessionF) : Dict Value :=
  s.parDict.filter (fun kv => !(delPred s.parLocation (sdiValsOf s) kv.1))

/-- `parLocationRed`: the location map without those same keys. -/
def parLocationRedOf (s : SessionF) : Dict String :=
  s.parLocation.filter
    (fun kv => !(decide (kv.1 ∈ dkeys s.parDict) &&
      delPred s.parLocation (sdiValsOf s) kv.1))

/-- `parLocationMod`: the reduced location map extended by the identity on
derived initial-value paths (`stateDictInitialLoc`). -/
def parLocationModOf (s : SessionF) : Dict String :=
  parLocationRedOf s ++ (sdiOf s).map (fun kv => (kv.2, kv.2))

def contStartValues (s : SessionF) : Option (Dict Value) :=
  if allResolvable s.parDict s.parLocation then
    match resolveList s.stateDict (sdiOf s) (dkeys s.stateDict) with
    | none => none
    | some stateEntries =>
      resolveList (parDictRedOf s ++ stateEntries) (parLocationModOf s)
        (dkeys (parDictRedOf s ++ stateEntries))
  else none

/-- The capture loop `for key in stateDict.keys(): stateDict[key] =
model_get(key)`: entries are overwritten in place; a `model_get` crash stops
the loop with the earlier entries already overwritten (flag `true`). -/
def captureStates (md : List VarMeta) (sres : SimRes) (sv : Dict Value) :
    Dict Value → Dict Value × Bool
  | [] => ([], false)
  | kv :: rest =>
    match model_get md sres sv kv.1 with
    | some w =>
      let r := captureStates md sres sv rest
      ((kv.1, w) :: r.1, r.2)
    | none => (kv :: rest, true)

/-- The tail of `simu` once `simulationDone` is true: capture every state
value through `model_get`, then store `sim_res['time'][-1]` as the new clock. -/
def finishF (md : List VarMeta) (s : SessionF) (sv : Dict Value) (res : SimRes)
    (call : ℚ × ℚ × Dict Value) : FResult :=
  let cap := captureStates md res sv s.stateDict
  if cap.2 then
    ⟨{ s with stateDict := cap.1 }, [call], [], FOutcome.raised PyErr.keyError⟩
  else
    match timeLast res with
    | none =>
      ⟨{ s with stateDict := cap.1 }, [call], [], FOutcome.raised PyErr.indexError⟩
    | some tf =>
      ⟨{ s with stateDict := cap.1, prevFinalTime := some tf }, [call], [],
        FOutcome.ok res⟩

/-- `simu()` of `BPL_TEST2_Chemostat_fmpy_explore.py` lines 629-720.  The
`init` branch builds the start values from the registry and simulates over
`[0, simulationTime]`; the `cont` branch requires a defined, nonzero
`prevFinalTime` (an undefined global raises `NameError`; zero prints the
ordering error and skips the simulation), rebuilds the start values with the
captured state overriding coinciding registry entries, and simulates from the
stored clock; both then capture the final state and advance the clock. -/
def simuF (md : List VarMeta) (B : FBackend) (mode : String) (T : ℚ)
    (s : SessionF) : FResult :=
  if mode ∈ (["Initial", "initial", "init"] : List String) then
    match freshStartValues s with
    | none => ⟨s, [], [], FOutcome.raised PyErr.keyError⟩
    | some sv =>
      match B.run 0 T sv with
      | Except.error _ => ⟨s, [(0, T, sv)], [], FOutcome.raised PyErr.backendError⟩
      | Except.ok res => finishF md s sv res (0, T, sv)
  else if mode ∈ (["Continued", "continued", "cont"] : List String) then
    match s.prevFinalTime with
    | none => ⟨s, [], [], FOutcome.raised PyErr.nameError⟩
    | some t =>
      if t = 0 then
        ⟨s, [], [RunMsg.ordering, RunMsg.noSim], FOutcome.finished⟩
      else
        match contStartValues s with
        | none => ⟨s, [], [], FOutcome.raised PyErr.keyError⟩
        | some sv =>
          match B.run t (t + T) sv with
          | Except.error _ =>
            ⟨s, [(t, t + T, sv)], [], FOutcome.raised PyErr.backendError⟩
          | Except.ok res => finishF md s sv res (t, t + T, sv)
  else
    ⟨s, [], [RunMsg.badMode, RunMsg.noSim], FOutcome.finished⟩

/-- A session of the fmpy variant before any run: default registry, the state
table discovered from the FMU metadata with `None` values, and the clock
global not yet defined. -/
def defaultSessionF (K : List String) : SessionF :=
  { parDict := parDictF, parLocation := parLocationF,
    stateDict := K.map (fun k => (k, Value.noneV)), prevFinalTime := none }

/-- The stateful PyFMI backend of `BPL_TEST2_Chemostat_explore.py`, as an
oracle: whether a `model.set` succeeds, the result and final `model.time`
of a `model.simulate`, and the value of a `model.get`. -/
structure PBackend where
  setOk : String → Value → Bool
  simulate : ℚ → ℚ → Except Unit (SimRes × ℚ)
  getVal : String → Except Unit Value

/-- Session state of the pyfmi variant. -/
structure SessionP where
  parDict : Dict Value
  parLocation : Dict String
  stateDict : Dict Value
  prevFinalTime : Option ℚ
  deriving DecidableEq

/-- One backend interaction of the pyfmi variant. -/
inductive PCall : Type
  | reset
  | set (path : String) (v : Value)
  | sim (a b : ℚ)
  | get (path : String)
  deriving DecidableEq

/-- Outcome of one pyfmi `simu` call. -/
inductive POutcome : Type
  | ok (res : SimRes)
  | finished
  | raised (e : PyErr)
  deriving DecidableEq

/-- Full observable behaviour of one pyfmi `simu` call. -/
structure PResult where
  state : SessionP
  calls : List PCall
  printed : List RunMsg
  outcome : POutcome
  deriving DecidableEq

/-- `for key in keys: model.set(parLocation[key], parDict[key])` — the calls
made and the exception, if any (`KeyError` on an unresolvable key, backend
error on a failing set). -/
def runSetsP (B : PBackend) (pl : Dict String) (pd : Dict Value) :
    List String → List PCall × Option PyErr
  | [] => ([], none)
  | k :: ks =>
    match dget pl k with
    | none => ([], some PyErr.keyError)
    | some loc =>
      let v := (dget pd k).getD Value.noneV
      if B.setOk loc v then
        let r := runSetsP B pl pd ks
        (PCall.set loc v :: r.1, r.2)
      else ([PCall.set loc v], some PyErr.backendError)

/-- The state-injection loop of the `cont` branch (lines 616-631 of
`BPL_TEST2_Chemostat_explore.py`): each state is written to its derived
`_0` path; an unsupported index width prints the overflow message and
`break`s (flag `true`), after which the run still proceeds. -/
def runStateSetsP (B : PBackend) (sd : Dict Value) :
    List String → List PCall × Option PyErr × Bool
  | [] => ([], none, false)
  | k :: ks =>
    match stateInitialKey0 k with
    | none => ([], none, true)
    | some loc =>
      let v := (dget sd k).getD Value.noneV
      if B.setOk loc v then
        let r := runStateSetsP B sd ks
        (PCall.set loc v :: r.1, r.2.1, r.2.2)
      else ([PCall.set loc v], some PyErr.backendError, false)

/-- The capture loop `for key in list(stateDict.keys()): stateDict[key] =
model.get(key)[0]`: entries are overwritten in place one by one; a failing
`get` propagates with the earlier entries already overwritten. -/
def runCaptureP (B : PBackend) :
    Dict Value → Dict Value × List PCall × Option PyErr
  | [] => ([], [], none)
  | kv :: rest =>
    match B.getVal kv.1 with
    | Except.ok w =>
      let r := runCaptureP B rest
      ((kv.1, w) :: r.1, PCall.get kv.1 :: r.2.1, r.2.2)
    | Except.error _ => (kv :: rest, [PCall.get kv.1], some PyErr.backendError)

/-- The tail of the pyfmi `simu` once `simulationDone` is true: capture every
state through `model.get`, then store `model.time` as the new clock. -/
def finishP (B : PBackend) (s : SessionP) (res : SimRes) (tEnd : ℚ)
    (calls0 : List PCall) (printed0 : List RunMsg) : PResult :=
  let cap := runCaptureP B s.stateDict
  match cap.2.2 with
  | some e => ⟨{ s with stateDict := cap.1 }, calls0 ++ cap.2.1, printed0,
      POutcome.raised e⟩
  | none => ⟨{ s with stateDict := cap.1, prevFinalTime := some tEnd },
      calls0 ++ cap.2.1, printed0, POutcome.ok res⟩

/-- `simu()` of `BPL_TEST2_Chemostat_explore.py` lines 573-658.  First the
missing-value guard over `parDict` (print the offending keys and return
before touching the backend), then `model.reset()`; the `init` branch sets
every registry entry and simulates over `[0, simulationTime]`; the `cont`
branch requires a defined (`NameError` otherwise), nonzero (ordering error
otherwise) `prevFinalTime`, sets the registry entries and then the captured
states on their derived `_0` paths, and simulates from the stored clock;
both branches then capture the final state and advance the clock. -/
def simuP (B : PBackend) (mode : String) (T : ℚ) (s : SessionP) : PResult :=
  let missing := (dkeys s.parDict).filter
    (fun k => isSentinelValue ((dget s.parDict k).getD Value.noneV))
  if missing = [] then
    if mode ∈ (["Initial", "initial", "init"] : List String) then
      let r := runSetsP B s.parLocation s.parDict (dkeys s.parDict)
      match r.2 with
      | some e => ⟨s, PCall.reset :: r.1, [], POutcome.raised e⟩
      | none =>
        match B.simulate 0 T with
        | Except.error _ =>
          ⟨s, PCall.reset :: r.1 ++ [PCall.sim 0 T], [], POutcome.raised PyErr.backendError⟩
        | Except.ok rt =>
          finishP B s rt.1 rt.2 (PCall.reset :: r.1 ++ [PCall.sim 0 T]) []
    else if mode ∈ (["Continued", "continued", "cont"] : List String) then
      match s.prevFinalTime with
      | none => ⟨s, [PCall.reset], [], POutcome.raised PyErr.nameError⟩
      | some t =>
        if t = 0 then
          ⟨s, [PCall.reset], [RunMsg.ordering, RunMsg.noSim], POutcome.finished⟩
        else
          let r := runSetsP B s.parLocation s.parDict (dkeys s.parDict)
          match r.2 with
          | some e => ⟨s, PCall.reset :: r.1, [], POutcome.raised e⟩
          | none =>
            let r2 := runStateSetsP B s.stateDict (dkeys s.stateDict)
            match r2.2.1 with
            | some e => ⟨s, PCall.reset :: r.1 ++ r2.1,
                (if r2.2.2 then [RunMsg.overflow] else []), POutcome.raised e⟩
            | none =>
              let pr := if r2.2.2 then [RunMsg.overflow] else []
              match B.simulate t (t + T) with
              | Except.error _ =>
                ⟨s, PCall.reset :: r.1 ++ r2.1 ++ [PCall.sim t (t + T)], pr,
                  POutcome.raised PyErr.backendError⟩
              | Except.ok rt =>
                finishP B s rt.1 rt.2
                  (PCall.reset :: r.1 ++ r2.1 ++ [PCall.sim t (t + T)]) pr
    else
      ⟨s, [PCall.reset], [RunMsg.badMode, RunMsg.noSim], POutcome.finished⟩
  else
    ⟨s, [], missing.map RunMsg.missing, POutcome.finished⟩

/-- A well-behaved stateless backend for states `K` under metadata `md`:
every call succeeds, returns a time series running from the requested start
to the requested stop, and leaves every state readable as a number through
`model_get`. -/
def GoodBackend (md : List VarMeta) (K : List String) (B : FBackend) : Prop :=
  ∀ a b sv, ∃ r, B.run a b sv = Except.ok r ∧ timeHead r = some a ∧
    timeLast r = some b ∧
    ∀ k ∈ K, ∃ x, model_get md r sv k = some (Value.num x)

/-- Concrete state-variable paths used by witnesses (two bioreactor mass
states; their derived paths coincide with the declared `VX_start` /
`VS_start` locations, exercising the deduplication). -/
def K0 : List String := ["bioreactor.m[1]", "bioreactor.m[2]"]

/-- Concrete FMU metadata used by witnesses. -/
def mdW : List VarMeta :=
  [⟨"bioreactor.m[1]", "calculatedParameter", "fixed", none⟩,
   ⟨"bioreactor.m[2]", "calculatedParameter", "fixed", none⟩]

/-- Concrete simulation result produced by the witness backend. -/
def resW (a b : ℚ) : SimRes :=
  ⟨[("time", [a, b]), ("bioreactor.m[1]", [1, 2]), ("bioreactor.m[2]", [3, 4])]⟩

/-- Witness backend for the fmpy variant. -/
def BW : FBackend := ⟨fun a b _ => Except.ok (resW a b)⟩

/-- Fmpy backend whose every simulation call raises. -/
def FBfail : FBackend := ⟨fun _ _ _ => Except.error ()⟩

/-- An fmpy session whose registry holds a `np.nan` for the yield `Y`. -/
def sFnan : SessionF :=
  { defaultSessionF K0 with parDict := parDictF ++ [("Y", Value.nanV)] }

/-- A pyfmi session before any run, with two abstract state paths. -/
def sP0 : SessionP :=
  ⟨parDictP, parLocationP, [("st1", Value.num 0), ("st2", Value.num 0)], none⟩

/-- A pyfmi session whose registry holds a `np.nan` for the yield `Y`. -/
def sPnan : SessionP := { sP0 with parDict := parDictP ++ [("Y", Value.nanV)] }

/-- Fully reliable witness backend for the pyfmi variant. -/
def PBW : PBackend :=
  ⟨fun _ _ => true, fun a b => Except.ok (⟨[("time", [a, b])]⟩, b),
   fun _ => Except.ok (Value.num 10)⟩

/-- Pyfmi backend whose `model.get` fails on every path except `st1`. -/
def PBbad : PBackend :=
  ⟨fun _ _ => true, fun a b => Except.ok (⟨[("time", [a, b])]⟩, b),
   fun k => if k = "st1" then Except.ok (Value.num 10) else Except.error ()⟩

theorem dget_append_some {α : Type} {m : Dict α} {k : String} {v : α}
    (l : Dict α) (h : dget m k = some v) : dget (l ++ m) k = some v := by
  induction l with
  | nil => simpa using h
  | cons kv l ih =>
    show dget (kv :: (l ++ m)) k = some v
    simp [dget, ih]

theorem dget_append_none {α : Type} {m : Dict α} {k : String}
    (l : Dict α) (h : dget m k = none) : dget (l ++ m) k = dget l k := by
  induction l with
  | nil => simpa using h
  | cons kv l ih =>
    show dget (kv :: (l ++ m)) k = dget (kv :: l) k
    simp [dget, ih]

theorem dget_isSome_iff {α : Type} {d : Dict α} {k : String} :
    (dget d k).isSome ↔ k ∈ keysOf d := by
  induction d with
  | nil => simp [dget, keysOf]
  | cons kv d ih =>
    have hmem : k ∈ keysOf (kv :: d) ↔ kv.1 = k ∨ k ∈ keysOf d := by
      show k ∈ kv.1 :: keysOf d ↔ _
      rw [List.mem_cons]
      constructor
      · rintro (h | h)
        · exact Or.inl h.symm
        · exact Or.inr h
      · rintro (h | h)
        · exact Or.inl h.symm
        · exact Or.inr h
    rw [hmem, ← ih]
    show (match dget d k with
          | some v => some v
          | none => if kv.1 = k then some kv.2 else none).isSome = true ↔ _
    cases h : dget d k with
    | some v => simp [h]
    | none => by_cases e : kv.1 = k <;> simp [e, h]

theorem dget_eq_none_iff {α : Type} {d : Dict α} {k : String} :
    dget d k = none ↔ k ∉ keysOf d := by
  rw [← dget_isSome_iff]
  exact Option.not_isSome_iff_eq_none.symm

theorem mem_dkeys {α : Type} {d : Dict α} {k : String} :
    k ∈ dkeys d ↔ k ∈ keysOf d := List.mem_dedup

theorem nodup_dkeys {α : Type} (d : Dict α) : (dkeys d).Nodup := List.nodup_dedup _

theorem keysOf_append {α : Type} (l m : Dict α) :
    keysOf (l ++ m) = keysOf l ++ keysOf m := List.map_append _ _ _

theorem keysOf_map_pair {α : Type} (g : String → α) (L : List String) :
    keysOf (L.map (fun j => (j, g j))) = L := by
  induction L with
  | nil => rfl
  | cons j L ih =>
    show j :: keysOf (L.map (fun j => (j, g j))) = j :: L
    rw [ih]

theorem dget_filter_key {α : Type} (P : String → Bool) (d : Dict α) (k : String) :
    dget (d.filter (fun kv => P kv.1)) k = if P k then dget d k else none := by
  induction d with
  | nil => simp [dget]
  | cons kv d ih =>
    by_cases hp : P kv.1
    · by_cases hk : P k
      · cases h : dget d k with
        | some v => simp [List.filter_cons, hp, dget, ih, h, hk]
        | none => simp [List.filter_cons, hp, dget, ih, h, hk]
      · have hne : ¬ kv.1 = k := fun e => hk (e ▸ hp)
        simp [List.filter_cons, hp, dget, ih, hk, hne]
    · by_cases hk : P k
      · have hne : ¬ kv.1 = k := fun e => hp (by rw [e]; exact hk)
        cases h : dget d k with
        | some v => simp [List.filter_cons, hp, dget, ih, h, hk, hne]
        | none => simp [List.filter_cons, hp, dget, ih, h, hk, hne]
      · simp [List.filter_cons, hp, ih, hk]

theorem dget_map_self {α : Type} (g : String → α) {L : List String} {k : String}
    (h : k ∈ L) : dget (L.map (fun j => (j, g j))) k = some (g k) := by
  induction L with
  | nil => cases h
  | cons j L ih =>
    by_cases hk : k ∈ L
    · simp [dget, ih hk]
    · have hj : j = k := by
        rcases List.mem_cons.mp h with h' | h'
        · exact h'.symm
        · exact absurd h' hk
      have hnone : dget (L.map (fun j => (j, g j))) k = none :=
        dget_eq_none_iff.mpr (by rw [keysOf_map_pair]; exact hk)
      simp [dget, hnone, hj]

theorem dget_idmap_none {L : List String} {k : String} (h : k ∉ L) :
    dget (L.map (fun v => (v, v))) k = none :=
  dget_eq_none_iff.mpr (by rw [keysOf_map_pair]; exact h)

theorem dget_idmap_some {L : List String} {k : String} (h : k ∈ L) :
    dget (L.map (fun v => (v, v))) k = some k :=
  dget_map_self (fun v => v) h

theorem resolveList_some (pd : Dict Value) (pl : Dict String) (L : List String)
    (h : ∀ k ∈ L, (dget pl k).isSome) : ∃ sv, resolveList pd pl L = some sv := by
  induction L with
  | nil => exact ⟨[], rfl⟩
  | cons k L ih =>
    obtain ⟨loc, hloc⟩ := Option.isSome_iff_exists.mp (h k (by simp))
    obtain ⟨sv, hsv⟩ := ih (fun j hj => h j (by simp [hj]))
    exact ⟨(loc, (dget pd k).getD Value.noneV) :: sv,
      by simp [resolveList, hloc, hsv]⟩

theorem resolveList_keys_sub (pd : Dict Value) (pl : Dict String)
    {L : List String} {sv : Dict Value} (hr : resolveList pd pl L = some sv) :
    ∀ x ∈ keysOf sv, ∃ k ∈ L, dget pl k = some x := by
  induction L generalizing sv with
  | nil =>
    simp [resolveList] at hr
    subst hr
    simp [keysOf]
  | cons k L ih =>
    simp only [resolveList] at hr
    cases hloc : dget pl k with
    | none => rw [hloc] at hr; cases hr
    | some loc =>
      rw [hloc] at hr
      cases hrest : resolveList pd pl L with
      | none => rw [hrest] at hr; cases hr
      | some rest =>
        rw [hrest] at hr
        simp only [Option.map_some'] at hr
        cases hr
        intro x hx
        rcases List.mem_cons.mp hx with h' | h'
        · exact ⟨k, by simp, by rw [hloc, h']⟩
        · obtain ⟨j, hj, hjx⟩ := ih hrest x h'
          exact ⟨j, by simp [hj], hjx⟩

theorem resolveList_keys_mem (pd : Dict Value) (pl : Dict String)
    {L : List String} {sv : Dict Value} {k : String} {loc : String}
    (hr : resolveList pd pl L = some sv) (hk : k ∈ L)
    (hloc : dget pl k = some loc) : loc ∈ keysOf sv := by
  induction L generalizing sv with
  | nil => cases hk
  | cons j L ih =>
    simp only [resolveList] at hr
    cases hlj : dget pl j with
    | none => rw [hlj] at hr; cases hr
    | some lj =>
      rw [hlj] at hr
      cases hrest : resolveList pd pl L with
      | none => rw [hrest] at hr; cases hr
      | some rest =>
        rw [hrest] at hr
        simp only [Option.map_some'] at hr
        cases hr
        rcases List.mem_cons.mp hk with h' | h'
        · subst h'
          rw [hloc] at hlj
          cases hlj
          simp [keysOf]
        · exact List.mem_cons_of_mem _ (ih hrest h')

theorem dget_resolveList_none (pd : Dict Value) (pl : Dict String)
    {L : List String} {sv : Dict Value} {loc : String}
    (hr : resolveList pd pl L = some sv)
    (h : ∀ k ∈ L, dget pl k ≠ some loc) : dget sv loc = none := by
  induction L generalizing sv with
  | nil =>
    simp [resolveList] at hr
    subst hr
    rfl
  | cons k L ih =>
    simp only [resolveList] at hr
    cases hlk : dget pl k with
    | none => rw [hlk] at hr; cases hr
    | some lk =>
      rw [hlk] at hr
      cases hrest : resolveList pd pl L with
      | none => rw [hrest] at hr; cases hr
      | some rest =>
        rw [hrest] at hr
        simp only [Option.map_some'] at hr
        cases hr
        have hne : ¬ lk = loc := by
          intro e
          exact h k (by simp) (by rw [hlk, e])
        have hrec : dget rest loc = none :=
          ih hrest (fun j hj => h j (by simp [hj]))
        simp [dget, hrec, hne]

theorem dget_resolveList (pd : Dict Value) (pl : Dict String) {k₀ loc : String} :
    ∀ (L : List String) {sv : Dict Value},
      resolveList pd pl L = some sv → L.Nodup → k₀ ∈ L →
      dget pl k₀ = some loc →
      (∀ k ∈ L, dget pl k = some loc → k = k₀) →
      (dget pd k₀).isSome →
      dget sv loc = dget pd k₀ := by
  intro L
  induction L with
  | nil => intro sv hr hnd hk hloc huniq hsome; cases hk
  | cons k L ih =>
    intro sv hr hnd hk hloc huniq hsome
    simp only [resolveList] at hr
    cases hlk : dget pl k with
    | none => rw [hlk] at hr; cases hr
    | some lk =>
      rw [hlk] at hr
      cases hrest : resolveList pd pl L with
      | none => rw [hrest] at hr; cases hr
      | some rest =>
        rw [hrest] at hr
        simp only [Option.map_some'] at hr
        cases hr
        by_cases hkk : k = k₀
        · subst hkk
          have hlkloc : lk = loc := by
            have h2 := hlk.symm.trans hloc
            cases h2
            rfl
          have hknotin : k ∉ L := (List.nodup_cons.mp hnd).1
          have hnone : dget rest loc = none := by
            refine dget_resolveList_none pd pl hrest (fun j hj e => ?_)
            have hjk : j = k := huniq j (List.mem_cons_of_mem _ hj) e
            exact hknotin (hjk ▸ hj)
          obtain ⟨v, hv⟩ := Option.isSome_iff_exists.mp hsome
          simp [dget, hnone, hlkloc, hv]
        · have hmem : k₀ ∈ L := by
            rcases List.mem_cons.mp hk with h' | h'
            · exact absurd h'.symm hkk
            · exact h'
          have hrec := ih hrest (List.nodup_cons.mp hnd).2 hmem hloc
            (fun j hj e => huniq j (List.mem_cons_of_mem _ hj) e) hsome
          obtain ⟨v, hv⟩ := Option.isSome_iff_exists.mp hsome
          rw [hv] at hrec
          rw [hv]
          simp [dget, hrec]

theorem captureStates_cons_some {md : List VarMeta} {sres : SimRes}
    {sv : Dict Value} {kv : String × Value} {sd : Dict Value} {w : Value}
    (hm : model_get md sres sv kv.1 = some w) :
    captureStates md sres sv (kv :: sd) =
      ((kv.1, w) :: (captureStates md sres sv sd).1,
        (captureStates md sres sv sd).2) := by
  simp [captureStates, hm]

theorem captureStates_cons_none {md : List VarMeta} {sres : SimRes}
    {sv : Dict Value} {kv : String × Value} {sd : Dict Value}
    (hm : model_get md sres sv kv.1 = none) :
    captureStates md sres sv (kv :: sd) = (kv :: sd, true) := by
  simp [captureStates, hm]

theorem captureStates_keys (md : List VarMeta) (sres : SimRes) (sv : Dict Value)
    (sd : Dict Value) :
    keysOf (captureStates md sres sv sd).1 = keysOf sd := by
  induction sd with
  | nil => rfl
  | cons kv sd ih =>
    cases h : model_get md sres sv kv.1 with
    | none => rw [captureStates_cons_none h]
    | some w =>
      rw [captureStates_cons_some h]
      show kv.1 :: keysOf (captureStates md sres sv sd).1 = kv.1 :: keysOf sd
      rw [ih]

theorem captureStates_nocrash (md : List VarMeta) (sres : SimRes) (sv : Dict Value)
    (sd : Dict Value)
    (h : ∀ kv ∈ sd, (model_get md sres sv kv.1).isSome) :
    (captureStates md sres sv sd).2 = false := by
  induction sd with
  | nil => rfl
  | cons kv sd ih =>
    obtain ⟨w, hw⟩ := Option.isSome_iff_exists.mp (h kv (by simp))
    have := ih (fun kv' h' => h kv' (by simp [h']))
    simp [captureStates, hw, this]

theorem captureStates_flag (md : List VarMeta) (sres : SimRes) (sv : Dict Value)
    (sd : Dict Value)
    (h : (captureStates md sres sv sd).2 = false) :
    ∀ kv ∈ sd, (model_get md sres sv kv.1).isSome := by
  induction sd with
  | nil => intro kv hkv; cases hkv
  | cons kv sd ih =>
    intro kv' hkv'
    cases hm : model_get md sres sv kv.1 with
    | none => rw [show (captureStates md sres sv (kv :: sd)).2 = true by
        simp [captureStates, hm]] at h; cases h
    | some w =>
      have hflag : (captureStates md sres sv sd).2 = false := by
        have : (captureStates md sres sv (kv :: sd)).2 =
            (captureStates md sres sv sd).2 := by simp [captureStates, hm]
        rw [this] at h
        exact h
      rcases List.mem_cons.mp hkv' with h' | h'
      · subst h'
        simp [hm]
      · exact ih hflag kv' h'

theorem dget_captureStates (md : List VarMeta) (sres : SimRes) (sv : Dict Value)
    (sd : Dict Value)
    (h : ∀ kv ∈ sd, (model_get md sres sv kv.1).isSome)
    (k : String) (hk : k ∈ keysOf sd) :
    dget (captureStates md sres sv sd).1 k = model_get md sres sv k := by
  induction sd with
  | nil => cases hk
  | cons kv sd ih =>
    obtain ⟨w, hw⟩ := Option.isSome_iff_exists.mp (h kv (by simp))
    have hrest : ∀ kv' ∈ sd, (model_get md sres sv kv'.1).isSome :=
      fun kv' h' => h kv' (by simp [h'])
    rw [captureStates_cons_some hw]
    by_cases hmem : k ∈ keysOf sd
    · have hr := ih hrest hmem
      obtain ⟨u, hu⟩ : ∃ u, model_get md sres sv k = some u := by
        obtain ⟨kv', hkv', hfst⟩ := List.mem_map.mp hmem
        exact Option.isSome_iff_exists.mp (hfst ▸ hrest kv' hkv')
      rw [hu] at hr
      simp [dget, hr, hu]
    · have hnone : dget (captureStates md sres sv sd).1 k = none :=
        dget_eq_none_iff.mpr (by rw [captureStates_keys]; exact hmem)
      have hkk : kv.1 = k := by
        rcases List.mem_cons.mp hk with h' | h'
        · exact h'.symm
        · exact absurd h' hmem
      subst hkk
      simp [dget, hnone, hw]

theorem buildSDI_total {L : List String}
    (h : ∀ k ∈ L, (stateDictInitialKey k).isSome) :
    buildSDI L =
      (L.map (fun k => (k, (stateDictInitialKey k).getD "")), false) := by
  induction L with
  | nil => rfl
  | cons k L ih =>
    obtain ⟨p, hp⟩ := Option.isSome_iff_exists.mp (h k (by simp))
    have := ih (fun j hj => h j (by simp [hj]))
    simp [buildSDI, hp, this]

theorem finishF_calls (md : List VarMeta) (s : SessionF) (sv : Dict Value)
    (res : SimRes) (call : ℚ × ℚ × Dict Value) :
    (finishF md s sv res call).calls = [call] := by
  unfold finishF
  by_cases h : (captureStates md res sv s.stateDict).2
  · simp [h]
  · cases ht : timeLast res <;> simp [h, ht]

theorem finishF_eq (md : List VarMeta) (s : SessionF) (sv : Dict Value)
    (res : SimRes) (call : ℚ × ℚ × Dict Value) (tf : ℚ)
    (hcap : (captureStates md res sv s.stateDict).2 = false)
    (htime : timeLast res = some tf) :
    finishF md s sv res call =
      ⟨{ s with
          stateDict := (captureStates md res sv s.stateDict).1,
          prevFinalTime := some tf },
        [call], [], FOutcome.ok res⟩ := by
  simp [finishF, hcap, htime]

theorem simuF_init_eq (md : List VarMeta) (B : FBackend) (T : ℚ) (s : SessionF)
    (sv : Dict Value) (res : SimRes) (tf : ℚ)
    (hsv : freshStartValues s = some sv)
    (hrun : B.run 0 T sv = Except.ok res)
    (hcap : (captureStates md res sv s.stateDict).2 = false)
    (htime : timeLast res = some tf) :
    simuF md B "init" T s =
      ⟨{ s with
          stateDict := (captureStates md res sv s.stateDict).1,
          prevFinalTime := some tf },
        [(0, T, sv)], [], FOutcome.ok res⟩ := by
  unfold simuF
  rw [if_pos (by decide :
    ("init" : String) ∈ (["Initial", "initial", "init"] : List String))]
  simp only [hsv]
  simp only [hrun]
  exact finishF_eq md s sv res (0, T, sv) tf hcap htime

theorem simuF_cont_eq (md : List VarMeta) (B : FBackend) (T : ℚ) (s : SessionF)
    (t : ℚ) (sv : Dict Value) (res : SimRes) (tf : ℚ)
    (hp : s.prevFinalTime = some t) (ht : ¬ t = 0)
    (hsv : contStartValues s = some sv)
    (hrun : B.run t (t + T) sv = Except.ok res)
    (hcap : (captureStates md res sv s.stateDict).2 = false)
    (htime : timeLast res = some tf) :
    simuF md B "cont" T s =
      ⟨{ s with
          stateDict := (captureStates md res sv s.stateDict).1,
          prevFinalTime := some tf },
        [(t, t + T, sv)], [], FOutcome.ok res⟩ := by
  unfold simuF
  rw [if_neg (by decide :
    ¬ ("cont" : String) ∈ (["Initial", "initial", "init"] : List String))]
  rw [if_pos (by decide :
    ("cont" : String) ∈ (["Continued", "continued", "cont"] : List String))]
  simp only [hp]
  rw [if_neg ht]
  simp only [hsv]
  simp only [hrun]
  exact finishF_eq md s sv res (t, t + T, sv) tf hcap htime

theorem simuF_cont_calls (md : List VarMeta) (B : FBackend) (T : ℚ) (s : SessionF)
    (t : ℚ) (sv : Dict Value)
    (hp : s.prevFinalTime = some t) (ht : ¬ t = 0)
    (hsv : contStartValues s = some sv) :
    (simuF md B "cont" T s).calls = [(t, t + T, sv)] := by
  unfold simuF
  rw [if_neg (by decide :
    ¬ ("cont" : String) ∈ (["Initial", "initial", "init"] : List String))]
  rw [if_pos (by decide :
    ("cont" : String) ∈ (["Continued", "continued", "cont"] : List String))]
  simp only [hp]
  rw [if_neg ht]
  simp only [hsv]
  cases hbr : B.run t (t + T) sv with
  | error e => simp only [hbr]
  | ok res =>
    simp only [hbr]
    exact finishF_calls md s sv res (t, t + T, sv)

theorem sdiOf_eq (s : SessionF)
    (htot : ∀ k ∈ dkeys s.stateDict, (stateDictInitialKey k).isSome) :
    sdiOf s =
      (dkeys s.stateDict).map (fun k => (k, (stateDictInitialKey k).getD "")) := by
  unfold sdiOf
  rw [buildSDI_total htot]

theorem sdiValsOf_eq (s : SessionF)
    (htot : ∀ k ∈ dkeys s.stateDict, (stateDictInitialKey k).isSome) :
    sdiValsOf s =
      (dkeys s.stateDict).map (fun k => (stateDictInitialKey k).getD "") := by
  unfold sdiValsOf
  rw [sdiOf_eq s htot, List.map_map]
  rfl

theorem idPart_eq (s : SessionF) :
    (sdiOf s).map (fun kv => (kv.2, kv.2)) =
      (sdiValsOf s).map (fun v => (v, v)) := by
  unfold sdiValsOf
  rw [List.map_map]
  rfl

theorem contStartValues_spec (s : SessionF)
    (hres : allResolvable s.parDict s.parLocation = true)
    (htot : ∀ k ∈ dkeys s.stateDict, (stateDictInitialKey k).isSome)
    (hinj : ∀ j ∈ dkeys s.stateDict, ∀ k ∈ dkeys s.stateDict,
        stateDictInitialKey j = stateDictInitialKey k → j = k) :
    ∃ sv, contStartValues s = some sv ∧
      ∀ k ∈ dkeys s.stateDict, ∀ p, stateDictInitialKey k = some p →
        dget sv p = dget s.stateDict k := by
  classical
  have hnd : (dkeys s.stateDict).Nodup := nodup_dkeys _
  have hsdiget : ∀ k ∈ dkeys s.stateDict,
      dget (sdiOf s) k = some ((stateDictInitialKey k).getD "") := by
    intro k hk
    rw [sdiOf_eq s htot]
    exact dget_map_self _ hk
  obtain ⟨SE, hSE⟩ := resolveList_some s.stateDict (sdiOf s) (dkeys s.stateDict)
    (fun k hk => by rw [hsdiget k hk]; rfl)
  -- keys of the state-entry dictionary are exactly derived paths
  have hSEkeys : ∀ x ∈ keysOf SE, x ∈ sdiValsOf s := by
    intro x hx
    obtain ⟨k, hk, hkx⟩ := resolveList_keys_sub _ _ hSE x hx
    rw [hsdiget k hk] at hkx
    rw [sdiValsOf_eq s htot]
    cases hkx
    exact List.mem_map.mpr ⟨k, hk, rfl⟩
  have hSEmem : ∀ k ∈ dkeys s.stateDict,
      (stateDictInitialKey k).getD "" ∈ keysOf SE := by
    intro k hk
    exact resolveList_keys_mem _ _ hSE hk (hsdiget k hk)
  -- looking a derived path up in the state-entry dictionary yields the
  -- captured state value
  have hSEget : ∀ k ∈ dkeys s.stateDict, ∀ p, stateDictInitialKey k = some p →
      dget SE p = dget s.stateDict k := by
    intro k hk p hp
    refine dget_resolveList s.stateDict _ _ hSE hnd hk ?_ ?_ ?_
    · rw [hsdiget k hk, hp]
      rfl
    · intro j hj e
      rw [hsdiget j hj] at e
      obtain ⟨q, hq⟩ := Option.isSome_iff_exists.mp (htot j hj)
      rw [hq] at e
      have ej : q = p := by simpa using e
      exact hinj j hj k hk (by rw [hq, hp, ej])
    · exact dget_isSome_iff.mpr (mem_dkeys.mp hk)
  -- membership in the reduced registry forces the deduplication predicate off
  have hRed : ∀ k ∈ keysOf (parDictRedOf s),
      delPred s.parLocation (sdiValsOf s) k = false ∧ k ∈ keysOf s.parDict := by
    intro k hk
    obtain ⟨kv, hkv, hfst⟩ := List.mem_map.mp hk
    obtain ⟨hkv1, hkv2⟩ := List.mem_filter.mp hkv
    subst hfst
    constructor
    · simpa using hkv2
    · exact List.mem_map.mpr ⟨kv, hkv1, rfl⟩
  -- every key of the merged dictionary resolves in the modified location map
  have hPLM : ∀ k ∈ dkeys (parDictRedOf s ++ SE),
      (dget (parLocationModOf s) k).isSome := by
    intro k hk
    by_cases hkv : k ∈ sdiValsOf s
    · have : dget ((sdiOf s).map (fun kv => (kv.2, kv.2))) k = some k := by
        rw [idPart_eq]
        exact dget_idmap_some hkv
      rw [parLocationModOf, dget_append_some _ this]
      rfl
    · have hmem : k ∈ keysOf (parDictRedOf s) := by
        have := mem_dkeys.mp hk
        rw [keysOf_append] at this
        rcases List.mem_append.mp this with h' | h'
        · exact h'
        · exact absurd (hSEkeys k h') hkv
      obtain ⟨hdel, hpd⟩ := hRed k hmem
      have hnoneid : dget ((sdiOf s).map (fun kv => (kv.2, kv.2))) k = none := by
        rw [idPart_eq]
        exact dget_idmap_none hkv
      rw [parLocationModOf, dget_append_none _ hnoneid]
      unfold parLocationRedOf
      rw [dget_filter_key
        (fun x => !(decide (x ∈ dkeys s.parDict) &&
          delPred s.parLocation (sdiValsOf s) x)) s.parLocation k]
      rw [hdel]
      simp only [Bool.and_false, Bool.not_false, if_true]
      have := List.all_eq_true.mp hres k (mem_dkeys.mpr hpd)
      exact this
  obtain ⟨sv, hsv⟩ := resolveList_some _ _ _ hPLM
  refine ⟨sv, ?_, ?_⟩
  · unfold contStartValues
    rw [if_pos hres]
    simp only [hSE]
    exact hsv
  · intro k hk p hp
    have hpval : p ∈ sdiValsOf s := by
      rw [sdiValsOf_eq s htot]
      exact List.mem_map.mpr ⟨k, hk, by rw [hp]; rfl⟩
    have hidp : dget ((sdiOf s).map (fun kv => (kv.2, kv.2))) p = some p := by
      rw [idPart_eq]
      exact dget_idmap_some hpval
    have hSEp : dget SE p = dget s.stateDict k := hSEget k hk p hp
    obtain ⟨v, hv⟩ := Option.isSome_iff_exists.mp
      (dget_isSome_iff.mpr (mem_dkeys.mp hk))
    have hPDMp : dget (parDictRedOf s ++ SE) p = some v := by
      apply dget_append_some
      rw [hSEp, hv]
    have hmemP : p ∈ dkeys (parDictRedOf s ++ SE) := by
      apply mem_dkeys.mpr
      rw [keysOf_append]
      refine List.mem_append.mpr (Or.inr ?_)
      have hx := hSEmem k hk
      rw [hp] at hx
      simpa using hx
    have hlocP : dget (parLocationModOf s) p = some p := by
      rw [parLocationModOf]
      exact dget_append_some _ hidp
    have huniqP : ∀ j ∈ dkeys (parDictRedOf s ++ SE),
        dget (parLocationModOf s) j = some p → j = p := by
      intro j hj e
      by_cases hjv : j ∈ sdiValsOf s
      · have : dget ((sdiOf s).map (fun kv => (kv.2, kv.2))) j = some j := by
          rw [idPart_eq]
          exact dget_idmap_some hjv
        rw [parLocationModOf, dget_append_some _ this] at e
        cases e
        rfl
      · have hmem : j ∈ keysOf (parDictRedOf s) := by
          have := mem_dkeys.mp hj
          rw [keysOf_append] at this
          rcases List.mem_append.mp this with h' | h'
          · exact h'
          · exact absurd (hSEkeys j h') hjv
        obtain ⟨hdel, hpd⟩ := hRed j hmem
        have hnoneid : dget ((sdiOf s).map (fun kv => (kv.2, kv.2))) j = none := by
          rw [idPart_eq]
          exact dget_idmap_none hjv
        rw [parLocationModOf, dget_append_none _ hnoneid] at e
        unfold parLocationRedOf at e
        rw [dget_filter_key
          (fun x => !(decide (x ∈ dkeys s.parDict) &&
            delPred s.parLocation (sdiValsOf s) x)) s.parLocation j] at e
        rw [hdel] at e
        simp only [Bool.and_false, Bool.not_false, if_true] at e
        have : delPred s.parLocation (sdiValsOf s) j = true := by
          unfold delPred
          rw [e]
          simpa using hpval
        rw [this] at hdel
        cases hdel
    have hfinal : dget sv p = dget (parDictRedOf s ++ SE) p :=
      dget_resolveList (parDictRedOf s ++ SE) (parLocationModOf s)
        (dkeys (parDictRedOf s ++ SE)) hsv (nodup_dkeys _) hmemP hlocP huniqP
        (by rw [hPDMp]; rfl)
    rw [hfinal, hPDMp, hv]

theorem finishF_not_backendError (md : List VarMeta) (s : SessionF)
    (sv : Dict Value) (res : SimRes) (call : ℚ × ℚ × Dict Value) :
    (finishF md s sv res call).outcome ≠ FOutcome.raised PyErr.backendError := by
  unfold finishF
  by_cases h : (captureStates md res sv s.stateDict).2
  · simp [h]
  · cases ht : timeLast res <;> simp [h, ht]

theorem simuF_cont_zero (md : List VarMeta) (B : FBackend) (T : ℚ) (s : SessionF)
    (hp : s.prevFinalTime = some 0) :
    simuF md B "cont" T s =
      ⟨s, [], [RunMsg.ordering, RunMsg.noSim], FOutcome.finished⟩ := by
  unfold simuF
  rw [if_neg (by decide :
    ¬ ("cont" : String) ∈ (["Initial", "initial", "init"] : List String))]
  rw [if_pos (by decide :
    ("cont" : String) ∈ (["Continued", "continued", "cont"] : List String))]
  simp only [hp]
  rw [if_pos trivial]

theorem simuF_cont_undefined (md : List VarMeta) (B : FBackend) (T : ℚ)
    (s : SessionF) (hp : s.prevFinalTime = none) :
    simuF md B "cont" T s = ⟨s, [], [], FOutcome.raised PyErr.nameError⟩ := by
  unfold simuF
  rw [if_neg (by decide :
    ¬ ("cont" : String) ∈ (["Initial", "initial", "init"] : List String))]
  rw [if_pos (by decide :
    ("cont" : String) ∈ (["Continued", "continued", "cont"] : List String))]
  simp only [hp]

theorem simuF_backendError_unchanged (md : List VarMeta) (B : FBackend)
    (mode : String) (T : ℚ) (s : SessionF)
    (h : (simuF md B mode T s).outcome = FOutcome.raised PyErr.backendError) :
    (simuF md B mode T s).state = s := by
  by_cases h1 : mode ∈ (["Initial", "initial", "init"] : List String)
  · cases hsv : freshStartValues s with
    | none =>
      have heq : simuF md B mode T s =
          ⟨s, [], [], FOutcome.raised PyErr.keyError⟩ := by
        unfold simuF
        rw [if_pos h1]
        simp only [hsv]
      rw [heq]
    | some sv =>
      cases hrun : B.run 0 T sv with
      | error e =>
        have heq : simuF md B mode T s =
            ⟨s, [(0, T, sv)], [], FOutcome.raised PyErr.backendError⟩ := by
          unfold simuF
          rw [if_pos h1]
          simp only [hsv]
          simp only [hrun]
        rw [heq]
      | ok res =>
        have heq : simuF md B mode T s = finishF md s sv res (0, T, sv) := by
          unfold simuF
          rw [if_pos h1]
          simp only [hsv]
          simp only [hrun]
        rw [heq] at h
        exact absurd h (finishF_not_backendError md s sv res (0, T, sv))
  · by_cases h2 : mode ∈ (["Continued", "continued", "cont"] : List String)
    · cases hp : s.prevFinalTime with
      | none =>
        have heq : simuF md B mode T s =
            ⟨s, [], [], FOutcome.raised PyErr.nameError⟩ := by
          unfold simuF
          rw [if_neg h1, if_pos h2]
          simp only [hp]
        rw [heq]
      | some t =>
        by_cases ht : t = 0
        · subst ht
          have heq : simuF md B mode T s =
              ⟨s, [], [RunMsg.ordering, RunMsg.noSim], FOutcome.finished⟩ := by
            unfold simuF
            rw [if_neg h1, if_pos h2]
            simp only [hp]
            rw [if_pos trivial]
          rw [heq]
        · cases hsv : contStartValues s with
          | none =>
            have heq : simuF md B mode T s =
                ⟨s, [], [], FOutcome.raised PyErr.keyError⟩ := by
              unfold simuF
              rw [if_neg h1, if_pos h2]
              simp only [hp]
              rw [if_neg ht]
              simp only [hsv]
            rw [heq]
          | some sv =>
            cases hrun : B.run t (t + T) sv with
            | error e =>
              have heq : simuF md B mode T s =
                  ⟨s, [(t, t + T, sv)], [],
                    FOutcome.raised PyErr.backendError⟩ := by
                unfold simuF
                rw [if_neg h1, if_pos h2]
                simp only [hp]
                rw [if_neg ht]
                simp only [hsv]
                simp only [hrun]
              rw [heq]
            | ok res =>
              have heq : simuF md B mode T s =
                  finishF md s sv res (t, t + T, sv) := by
                unfold simuF
                rw [if_neg h1, if_pos h2]
                simp only [hp]
                rw [if_neg ht]
                simp only [hsv]
                simp only [hrun]
              rw [heq] at h
              exact absurd h (finishF_not_backendError md s sv res (t, t + T, sv))
    · have heq : simuF md B mode T s =
          ⟨s, [], [RunMsg.badMode, RunMsg.noSim], FOutcome.finished⟩ := by
        unfold simuF
        rw [if_neg h1, if_neg h2]
      rw [heq]

theorem runCaptureP_noerr (B : PBackend) (sd : Dict Value)
    (hget : ∀ k, B.getVal k ≠ Except.error ()) :
    (runCaptureP B sd).2.2 = none := by
  induction sd with
  | nil => rfl
  | cons kv sd ih =>
    cases hg : B.getVal kv.1 with
    | error e => cases e; exact absurd hg (hget kv.1)
    | ok w => simp [runCaptureP, hg, ih]

theorem finishP_outcome_ok (B : PBackend) (s : SessionP) (res : SimRes)
    (tEnd : ℚ) (calls0 : List PCall) (printed0 : List RunMsg)
    (hcap : (runCaptureP B s.stateDict).2.2 = none) :
    (finishP B s res tEnd calls0 printed0).outcome = POutcome.ok res := by
  simp only [finishP]
  rw [hcap]

theorem simuP_raised_unchanged (B : PBackend) (mode : String) (T : ℚ)
    (s : SessionP) (hget : ∀ k, B.getVal k ≠ Except.error ()) (e : PyErr)
    (h : (simuP B mode T s).outcome = POutcome.raised e) :
    (simuP B mode T s).state = s := by
  have hcap := runCaptureP_noerr B s.stateDict hget
  by_cases h0 : (List.filter
      (fun k => isSentinelValue ((dget s.parDict k).getD Value.noneV))
      (dkeys s.parDict)) = []
  case neg =>
    have heq : (simuP B mode T s).state = s := by
      simp only [simuP]
      rw [if_neg h0]
    exact heq
  case pos =>
  by_cases h1 : mode ∈ (["Initial", "initial", "init"] : List String)
  · cases hr : (runSetsP B s.parLocation s.parDict (dkeys s.parDict)).2 with
    | some e2 =>
      have heq : (simuP B mode T s).state = s := by
        simp only [simuP]
        rw [if_pos h0, if_pos h1]
        simp only [hr]
      exact heq
    | none =>
      cases hsim : B.simulate 0 T with
      | error e2 =>
        have heq : (simuP B mode T s).state = s := by
          simp only [simuP]
          rw [if_pos h0, if_pos h1]
          simp only [hr]
          simp only [hsim]
        exact heq
      | ok rt =>
        have heq : simuP B mode T s = finishP B s rt.1 rt.2
            (PCall.reset ::
              (runSetsP B s.parLocation s.parDict (dkeys s.parDict)).1 ++
              [PCall.sim 0 T]) [] := by
          simp only [simuP]
          rw [if_pos h0, if_pos h1]
          simp only [hr]
          simp only [hsim]
        rw [heq] at h
        rw [finishP_outcome_ok B s rt.1 rt.2 _ _ hcap] at h
        cases h
  · by_cases h2 : mode ∈ (["Continued", "continued", "cont"] : List String)
    · cases hp : s.prevFinalTime with
      | none =>
        have heq : (simuP B mode T s).state = s := by
          simp only [simuP]
          rw [if_pos h0, if_neg h1, if_pos h2]
          simp only [hp]
        exact heq
      | some t =>
        by_cases ht : t = 0
        · subst ht
          have heq : (simuP B mode T s).state = s := by
            simp only [simuP]
            rw [if_pos h0, if_neg h1, if_pos h2]
            simp only [hp]
            rw [if_pos trivial]
          exact heq
        · cases hr : (runSetsP B s.parLocation s.parDict (dkeys s.parDict)).2 with
          | some e2 =>
            have heq : (simuP B mode T s).state = s := by
              simp only [simuP]
              rw [if_pos h0, if_neg h1, if_pos h2]
              simp only [hp]
              rw [if_neg ht]
              simp only [hr]
            exact heq
          | none =>
            cases hr2 :
                (runStateSetsP B s.stateDict (dkeys s.stateDict)).2.1 with
            | some e2 =>
              have heq : (simuP B mode T s).state = s := by
                simp only [simuP]
                rw [if_pos h0, if_neg h1, if_pos h2]
                simp only [hp]
                rw [if_neg ht]
                simp only [hr]
                simp only [hr2]
              exact heq
            | none =>
              cases hsim : B.simulate t (t + T) with
              | error e2 =>
                have heq : (simuP B mode T s).state = s := by
                  simp only [simuP]
                  rw [if_pos h0, if_neg h1, if_pos h2]
                  simp only [hp]
                  rw [if_neg ht]
                  simp only [hr]
                  simp only [hr2]
                  simp only [hsim]
                exact heq
              | ok rt =>
                have heq : simuP B mode T s = finishP B s rt.1 rt.2
                    (PCall.reset ::
                      (runSetsP B s.parLocation s.parDict (dkeys s.parDict)).1 ++
                      (runStateSetsP B s.stateDict (dkeys s.stateDict)).1 ++
                      [PCall.sim t (t + T)])
                    (if (runStateSetsP B s.stateDict (dkeys s.stateDict)).2.2
                      then [RunMsg.overflow] else []) := by
                  simp only [simuP]
                  rw [if_pos h0, if_neg h1, if_pos h2]
                  simp only [hp]
                  rw [if_neg ht]
                  simp only [hr]
                  simp only [hr2]
                  simp only [hsim]
                rw [heq] at h
                rw [finishP_outcome_ok B s rt.1 rt.2 _ _ hcap] at h
                cases h
    · have heq : (simuP B mode T s).state = s := by
        simp only [simuP]
        rw [if_pos h0, if_neg h1, if_neg h2]
      exact heq

theorem simuP_missing_guard (B : PBackend) (mode : String) (T : ℚ) (s : SessionP)
    (h : ¬ (dkeys s.parDict).filter
        (fun k => isSentinelValue ((dget s.parDict k).getD Value.noneV)) = []) :
    simuP B mode T s =
      ⟨s, [],
        ((dkeys s.parDict).filter
          (fun k => isSentinelValue ((dget s.parDict k).getD Value.noneV))).map
          RunMsg.missing,
        POutcome.finished⟩ := by
  simp only [simuP]
  rw [if_neg h]

/-- C3 counterexample: the derivation rule maps `someBlockI.y` to
`soI_start` (ten characters stripped, `I_start` appended), not to
`someBlock_start` as claimed. -/
theorem c3_counterexample :
    stateDictInitialKey "someBlockI.y" = some "soI_start" ∧
    ¬ stateDictInitialKey "someBlockI.y" = some "someBlock_start" := by
  decide

/-- C3 (amended): the initial-value path derivation maps `bioreactor.m[2]` to
`bioreactor.m_start[2]` (marker spliced before the bracketed index) and
`bioreactor.culture.Y` to `bioreactor.culture.Y_start` (marker appended
directly), but maps `someBlockI.y` to `soI_start`: rule 2 strips the last
ten characters of the path and appends `I_start`, it does not strip just the
block suffix. -/
theorem c3_derivation_rule :
    stateDictInitialKey "bioreactor.m[2]" = some "bioreactor.m_start[2]" ∧
    stateDictInitialKey "someBlockI.y" = some "soI_start" ∧
    stateDictInitialKey "bioreactor.culture.Y" =
      some "bioreactor.culture.Y_start" := by
  decide

/-- C2: in a session with no prior completed run the clock global
`prevFinalTime` is still undefined, so `simu(mode='cont')` raises a
`NameError` at the ordering check instead of printing the documented
ordering error; no backend call is made and the session state is left
unchanged.  The printed ordering diagnostic is unreachable in this
situation, contradicting the claim that it is reported. -/
theorem c2_cont_without_init_raises :
    simuF mdW BW "cont" 60 (defaultSessionF K0) =
      ⟨defaultSessionF K0, [], [], FOutcome.raised PyErr.nameError⟩ :=
  simuF_cont_undefined mdW BW 60 (defaultSessionF K0) rfl

/-- C4 counterexample: the fmpy variant performs no missing-value check:
with `np.nan` stored for the yield `Y`, `simu(init)` prints no diagnostic
and still invokes the backend. -/
theorem c4_counterexample :
    dget sFnan.parDict "Y" = some Value.nanV ∧
    (simuF mdW BW "init" 60 sFnan).printed = [] ∧
    ¬ (simuF mdW BW "init" 60 sFnan).calls = [] := by
  decide

/-- C4 (amended): in the pyfmi variant (`BPL_TEST2_Chemostat_explore.py`),
whenever any registry value is a missing-value sentinel the run prints a
diagnostic naming each offending key and returns with no backend call and
the session state unchanged; the fmpy variant performs no such check and
calls the backend regardless. -/
theorem c4_missing_value_guard (B : PBackend) (mode : String) (T : ℚ)
    (s : SessionP)
    (h : ¬ (dkeys s.parDict).filter
        (fun k => isSentinelValue ((dget s.parDict k).getD Value.noneV)) = []) :
    simuP B mode T s =
      ⟨s, [],
        ((dkeys s.parDict).filter
          (fun k => isSentinelValue ((dget s.parDict k).getD Value.noneV))).map
          RunMsg.missing,
        POutcome.finished⟩ :=
  simuP_missing_guard B mode T s h

/-- Witness for C4: a registry holding `np.nan` for `Y` makes the pyfmi
`simu` print the missing-value diagnostic for `Y` and return untouched. -/
theorem c4_missing_value_guard_witness :
    simuP PBW "init" 60 sPnan =
      ⟨sPnan, [], [RunMsg.missing "Y"], POutcome.finished⟩ :=
  c4_missing_value_guard PBW "init" 60 sPnan (by decide)

/-- C5 counterexample: in the pyfmi variant a backend `get` failure during
the post-simulate state capture leaves the session mutated: the first state
is already overwritten with the freshly captured value although the run
raised. -/
theorem c5_counterexample :
    (simuP PBbad "init" 60 sP0).outcome = POutcome.raised PyErr.backendError ∧
    ¬ (simuP PBbad "init" 60 sP0).state.stateDict = sP0.stateDict := by
  decide

/-- C5 (amended): when the backend raises during start-value resolution, a
`set`, or `simulate`, no session state is mutated: the fmpy `simu` leaves
the session untouched on any simulation failure, and the pyfmi `simu`
leaves it untouched on any raised error provided `model.get` succeeds; a
`get` failure during the pyfmi state capture, however, can leave the
captured values partially overwritten. -/
theorem c5_backend_failure_rollback :
    (∀ md B mode T s,
      (simuF md B mode T s).outcome = FOutcome.raised PyErr.backendError →
      (simuF md B mode T s).state = s) ∧
    (∀ B mode T s, (∀ k, PBackend.getVal B k ≠ Except.error ()) → ∀ e,
      (simuP B mode T s).outcome = POutcome.raised e →
      (simuP B mode T s).state = s) :=
  ⟨fun md B mode T s h => simuF_backendError_unchanged md B mode T s h,
   fun B mode T s hget e h => simuP_raised_unchanged B mode T s hget e h⟩

/-- Witness for C5: a failing fmpy simulation leaves the default session
unchanged, and a raising pyfmi continuation call (undefined clock) leaves
its session unchanged. -/
theorem c5_backend_failure_rollback_witness :
    (simuF mdW FBfail "init" 60 (defaultSessionF K0)).state =
      defaultSessionF K0 ∧
    (simuP PBW "cont" 60 sP0).state = sP0 :=
  ⟨c5_backend_failure_rollback.1 mdW FBfail "init" 60 (defaultSessionF K0)
      (by decide),
   c5_backend_failure_rollback.2 PBW "cont" 60 sP0
      (fun k h => nomatch h) PyErr.nameError (by decide)⟩

/-- C10: `init()` merges any keyword whose name contains the marker
substring, with no membership check against the declared keys — merged
values land in the registry with the keyword's value — and it can thereby
introduce a registry key (here `junk_start`) that has no resolved backend
path in `parLocation`. -/
theorem c10_init_merges_any_marker_key :
    (∀ marker pd kw k, strHasSub marker k = true → k ∈ dkeys kw →
      k ∈ dkeys (initU marker pd kw).parDict ∧
      dget (initU marker pd kw).parDict k = dget kw k) ∧
    ("junk_start" ∈ dkeys (initU "_start" parDictF
        [("junk_start", Value.num 1)]).parDict ∧
      dget parLocationF "junk_start" = none) := by
  constructor
  · intro marker pd kw k hmark hk
    have hxget : dget (kw.filter (fun kv => strHasSub marker kv.1)) k =
        dget kw k := by
      rw [dget_filter_key (fun x => strHasSub marker x) kw k, if_pos hmark]
    have hksome : (dget kw k).isSome := dget_isSome_iff.mpr (mem_dkeys.mp hk)
    obtain ⟨v, hv⟩ := Option.isSome_iff_exists.mp hksome
    constructor
    · show k ∈ dkeys (pd ++ kw.filter (fun kv => strHasSub marker kv.1))
      apply mem_dkeys.mpr
      rw [keysOf_append]
      refine List.mem_append.mpr (Or.inr ?_)
      apply dget_isSome_iff.mp
      rw [hxget]
      exact hksome
    · show dget (pd ++ kw.filter (fun kv => strHasSub marker kv.1)) k = dget kw k
      rw [dget_append_some _ (hxget.trans hv), hv]
  · exact ⟨by decide, by decide⟩

/-- Witness for C10: `init(junk_start=1)` on the default fmpy registry
stores the undeclared key with its value. -/
theorem c10_init_merges_any_marker_key_witness :
    "junk_start" ∈ dkeys (initU "_start" parDictF
      [("junk_start", Value.num 1)]).parDict ∧
    dget (initU "_start" parDictF [("junk_start", Value.num 1)]).parDict
        "junk_start" =
      dget [("junk_start", Value.num 1)] "junk_start" :=
  c10_init_merges_any_marker_key.1 "_start" parDictF
    [("junk_start", Value.num 1)] "junk_start" (by decide) (by decide)

/-- C7: `par()` merges exactly the known mnemonic keys with their new
values: the set of registry keys is unchanged (so an unknown key never
becomes resolvable), known keys present in the call take the call's value,
keys absent from the call keep their value, and every unknown key in the
call is reported in the unknown list while staying out of the registry. -/
theorem c7_par_merges_exactly_known_keys
    (pc : List ParReq) (pd : Dict Value) (kw : Dict Value) (k : String) :
    (k ∈ dkeys (par pc pd kw).parDict ↔ k ∈ dkeys pd) ∧
    (k ∈ dkeys pd → k ∈ dkeys kw →
      dget (par pc pd kw).parDict k = dget kw k) ∧
    (k ∉ dkeys kw → dget (par pc pd kw).parDict k = dget pd k) ∧
    (k ∉ dkeys pd →
      dget (par pc pd kw).parDict k = none ∧
      (k ∈ dkeys kw → k ∈ (par pc pd kw).unknown)) := by
  have hpd : (par pc pd kw).parDict =
      pd ++ kw.filter (fun kv => decide (kv.1 ∈ dkeys pd)) := by
    simp only [par]
    split
    · rfl
    · rfl
  have hunk : (par pc pd kw).unknown =
      (dkeys kw).filter (fun k => ¬ decide (k ∈ dkeys pd)) := by
    simp only [par]
    split
    · rfl
    · rfl
  have hfil : ∀ j, dget (kw.filter (fun kv => decide (kv.1 ∈ dkeys pd))) j =
      if decide (j ∈ dkeys pd) then dget kw j else none :=
    fun j => dget_filter_key (fun x => decide (x ∈ dkeys pd)) kw j
  refine ⟨?_, ?_, ?_, ?_⟩
  · rw [hpd]
    constructor
    · intro h
      have := mem_dkeys.mp h
      rw [keysOf_append] at this
      rcases List.mem_append.mp this with h' | h'
      · exact mem_dkeys.mpr h'
      · obtain ⟨kv, hkv, hfst⟩ := List.mem_map.mp h'
        have := (List.mem_filter.mp hkv).2
        rw [hfst] at this
        exact of_decide_eq_true this
    · intro h
      apply mem_dkeys.mpr
      rw [keysOf_append]
      exact List.mem_append.mpr (Or.inl (mem_dkeys.mp h))
  · intro hk hkw
    rw [hpd]
    obtain ⟨v, hv⟩ := Option.isSome_iff_exists.mp
      (dget_isSome_iff.mpr (mem_dkeys.mp hkw))
    rw [dget_append_some _ (show dget (kw.filter
        (fun kv => decide (kv.1 ∈ dkeys pd))) k = some v by
      rw [hfil k, if_pos (decide_eq_true hk)]
      exact hv), hv]
  · intro hkw
    rw [hpd]
    apply dget_append_none
    rw [hfil k]
    have hnone : dget kw k = none := dget_eq_none_iff.mpr
      (fun h => hkw (mem_dkeys.mpr h))
    by_cases hd : decide (k ∈ dkeys pd) = true
    · rw [if_pos hd]
      exact hnone
    · rw [if_neg hd]
  · intro hk
    constructor
    · rw [hpd]
      have hleft : dget pd k = none := dget_eq_none_iff.mpr
        (fun h => hk (mem_dkeys.mpr h))
      have hright : dget (kw.filter (fun kv => decide (kv.1 ∈ dkeys pd))) k =
          none := by
        rw [hfil k, if_neg (by simpa using hk)]
      rw [dget_append_none _ hright]
      exact hleft
    · intro hkw
      rw [hunk]
      refine List.mem_filter.mpr ⟨hkw, ?_⟩
      simpa using hk

/-- Witness for C7: updating the default pyfmi registry with a known key
`Y` and an unknown key `Z` stores the new `Y`, keeps `Z` unresolvable, and
reports `Z`. -/
theorem c7_par_merges_exactly_known_keys_witness :
    (("Z" ∈ dkeys (par parCheckP parDictP
        [("Y", Value.num 1), ("Z", Value.num 2)]).parDict ↔
      "Z" ∈ dkeys parDictP) ∧
    ("Z" ∈ dkeys parDictP → "Z" ∈ dkeys [("Y", Value.num 1), ("Z", Value.num 2)] →
      dget (par parCheckP parDictP
        [("Y", Value.num 1), ("Z", Value.num 2)]).parDict "Z" =
        dget [("Y", Value.num 1), ("Z", Value.num 2)] "Z") ∧
    ("Z" ∉ dkeys [("Y", Value.num 1), ("Z", Value.num 2)] →
      dget (par parCheckP parDictP
        [("Y", Value.num 1), ("Z", Value.num 2)]).parDict "Z" =
        dget parDictP "Z") ∧
    ("Z" ∉ dkeys parDictP →
      dget (par parCheckP parDictP
        [("Y", Value.num 1), ("Z", Value.num 2)]).parDict "Z" = none ∧
      ("Z" ∈ dkeys [("Y", Value.num 1), ("Z", Value.num 2)] →
        "Z" ∈ (par parCheckP parDictP
          [("Y", Value.num 1), ("Z", Value.num 2)]).unknown))) :=
  c7_par_merges_exactly_known_keys parCheckP parDictP
    [("Y", Value.num 1), ("Z", Value.num 2)] "Z"

/-- C6: after `par()` the requirement list is evaluated on the merged
registry and exactly the failing requirements are reported (every false one
reported, no true one reported), provided no evaluation raises; and the
merged values remain stored even when requirements fail: updating the
default registry with `Y = -1` stores `-1` while reporting exactly the
yield-positivity requirement. -/
theorem c6_validity_reporting :
    (∀ pd kw q, (par parCheckP pd kw).evalCrash = false →
      (q ∈ (par parCheckP pd kw).reqErrors ↔
        q ∈ parCheckP ∧
          evalReq (par parCheckP pd kw).parDict q = some false)) ∧
    (dget (par parCheckP parDictP [("Y", Value.num (mkq (-1) 1))]).parDict "Y" =
        some (Value.num (mkq (-1) 1)) ∧
      (par parCheckP parDictP [("Y", Value.num (mkq (-1) 1))]).reqErrors =
        [ParReq.gt0 "Y"]) := by
  constructor
  · intro pd kw q hcrash
    by_cases hall : parCheckP.all (fun q => (evalReq
        (pd ++ kw.filter (fun kv => decide (kv.1 ∈ dkeys pd))) q).isSome)
    · have hform : (par parCheckP pd kw).reqErrors = parCheckP.filter
          (fun q => decide (evalReq
            (pd ++ kw.filter (fun kv => decide (kv.1 ∈ dkeys pd))) q =
              some false)) := by
        unfold par
        rw [if_pos hall]
      have hmerged : (par parCheckP pd kw).parDict =
          pd ++ kw.filter (fun kv => decide (kv.1 ∈ dkeys pd)) := by
        simp only [par]
        split
        · rfl
        · rfl
      rw [hform, hmerged]
      rw [List.mem_filter]
      simp
    · exfalso
      have : (par parCheckP pd kw).evalCrash = true := by
        unfold par
        rw [if_neg hall]
      rw [this] at hcrash
      cases hcrash
  · exact ⟨by decide, by decide⟩

/-- Witness for C6: the yield-positivity requirement is reported after
`par(Y = -1)` on the default registry, by the reporting characterization. -/
theorem c6_validity_reporting_witness :
    ParReq.gt0 "Y" ∈
      (par parCheckP parDictP [("Y", Value.num (mkq (-1) 1))]).reqErrors ↔
    ParReq.gt0 "Y" ∈ parCheckP ∧
      evalReq (par parCheckP parDictP
        [("Y", Value.num (mkq (-1) 1))]).parDict (ParReq.gt0 "Y") = some false :=
  c6_validity_reporting.1 parDictP [("Y", Value.num (mkq (-1) 1))] (ParReq.gt0 "Y")
    (by decide)

/-- C1: when a fresh run completes and a continuation run follows
immediately, the continuation's `simulate_fmu` call receives, for every
state variable, the value captured at the end of the fresh run (the
`model_get` read on the fresh result) stored under the state's derived
initial-value path — so the captured dynamic state overrides any declared
initial value whose resolved location coincides with that path, since the
path resolves to the captured value regardless of the registry content. -/
theorem c1_continuation_applies_captured_state
    (md : List VarMeta) (B Bc : FBackend) (T Tc tf : ℚ) (s : SessionF)
    (sv₀ : Dict Value) (res : SimRes)
    (hsv : freshStartValues s = some sv₀)
    (hrun : B.run 0 T sv₀ = Except.ok res)
    (hcap : (captureStates md res sv₀ s.stateDict).2 = false)
    (htime : timeLast res = some tf) (htf : ¬ tf = 0)
    (hres : allResolvable s.parDict s.parLocation = true)
    (htot : ∀ k ∈ dkeys s.stateDict, (stateDictInitialKey k).isSome)
    (hinj : ∀ j ∈ dkeys s.stateDict, ∀ k ∈ dkeys s.stateDict,
        stateDictInitialKey j = stateDictInitialKey k → j = k) :
    (simuF md B "init" T s).outcome = FOutcome.ok res ∧
    ∃ sv₁,
      (simuF md Bc "cont" Tc (simuF md B "init" T s).state).calls =
        [(tf, tf + Tc, sv₁)] ∧
      ∀ k ∈ dkeys s.stateDict, ∀ p, stateDictInitialKey k = some p →
        dget sv₁ p = dget (simuF md B "init" T s).state.stateDict k ∧
        dget (simuF md B "init" T s).state.stateDict k =
          model_get md res sv₀ k := by
  have heq := simuF_init_eq md B T s sv₀ res tf hsv hrun hcap htime
  have hkeys : dkeys
      ({ s with
          stateDict := (captureStates md res sv₀ s.stateDict).1,
          prevFinalTime := some tf } : SessionF).stateDict =
      dkeys s.stateDict := by
    show dkeys (captureStates md res sv₀ s.stateDict).1 = dkeys s.stateDict
    have hk := captureStates_keys md res sv₀ s.stateDict
    unfold keysOf at hk
    unfold dkeys
    rw [hk]
  have hres₁ : allResolvable
      ({ s with
          stateDict := (captureStates md res sv₀ s.stateDict).1,
          prevFinalTime := some tf } : SessionF).parDict
      ({ s with
          stateDict := (captureStates md res sv₀ s.stateDict).1,
          prevFinalTime := some tf } : SessionF).parLocation = true := hres
  have htot₁ := hkeys ▸ htot
  have hinj₁ := hkeys ▸ hinj
  obtain ⟨sv₁, hsv₁, hprop⟩ := contStartValues_spec
    { s with
        stateDict := (captureStates md res sv₀ s.stateDict).1,
        prevFinalTime := some tf } hres₁ htot₁ hinj₁
  refine ⟨by rw [heq], sv₁, ?_, ?_⟩
  · rw [heq]
    exact simuF_cont_calls md Bc Tc _ tf sv₁ rfl htf hsv₁
  · intro k hk p hp
    have hk₁ : k ∈ dkeys
        ({ s with
            stateDict := (captureStates md res sv₀ s.stateDict).1,
            prevFinalTime := some tf } : SessionF).stateDict := by
      rw [hkeys]
      exact hk
    constructor
    · rw [heq]
      exact hprop k hk₁ p hp
    · rw [heq]
      exact dget_captureStates md res sv₀ s.stateDict
        (captureStates_flag md res sv₀ s.stateDict hcap) k (mem_dkeys.mp hk)

/-- Witness for C1: fresh run then continuation on the default fmpy session
with two mass states and a concrete backend. -/
theorem c1_continuation_applies_captured_state_witness :
    (simuF mdW BW "init" 60 (defaultSessionF K0)).outcome =
      FOutcome.ok (resW 0 60) ∧
    ∃ sv₁,
      (simuF mdW BW "cont" 60
        (simuF mdW BW "init" 60 (defaultSessionF K0)).state).calls =
        [(60, 60 + 60, sv₁)] ∧
      ∀ k ∈ dkeys (defaultSessionF K0).stateDict, ∀ p,
        stateDictInitialKey k = some p →
        dget sv₁ p =
          dget (simuF mdW BW "init" 60 (defaultSessionF K0)).state.stateDict k ∧
        dget (simuF mdW BW "init" 60 (defaultSessionF K0)).state.stateDict k =
          model_get mdW (resW 0 60)
            ((freshStartValues (defaultSessionF K0)).getD []) k :=
  c1_continuation_applies_captured_state mdW BW BW 60 60 60
    (defaultSessionF K0) ((freshStartValues (defaultSessionF K0)).getD [])
    (resW 0 60) (by decide) rfl (by decide) (by decide) (by decide)
    (by decide) (by decide) (by decide)

/-- C9: readiness for continuation is represented solely by a nonzero
stored clock.  A fresh run of duration 0 completes normally but leaves
`prevFinalTime = 0`, so an immediately following continuation run is
refused with the ordering error ("simulation is first done with mode
init") and makes no backend call, even though a prior run completed. -/
theorem c9_zero_clock_refuses_continuation
    (md : List VarMeta) (B Bc : FBackend) (K : List String) (Tc : ℚ)
    (sv : Dict Value) (res : SimRes)
    (hsv : freshStartValues (defaultSessionF K) = some sv)
    (hrun : B.run 0 0 sv = Except.ok res)
    (hcap : (captureStates md res sv (defaultSessionF K).stateDict).2 = false)
    (htime : timeLast res = some 0) :
    (simuF md B "init" 0 (defaultSessionF K)).outcome = FOutcome.ok res ∧
    (simuF md B "init" 0 (defaultSessionF K)).state.prevFinalTime = some 0 ∧
    simuF md Bc "cont" Tc (simuF md B "init" 0 (defaultSessionF K)).state =
      ⟨(simuF md B "init" 0 (defaultSessionF K)).state, [],
        [RunMsg.ordering, RunMsg.noSim], FOutcome.finished⟩ := by
  have heq := simuF_init_eq md B 0 (defaultSessionF K) sv res 0 hsv hrun hcap
    htime
  refine ⟨by rw [heq], by rw [heq], ?_⟩
  rw [heq]
  exact simuF_cont_zero md Bc Tc _ rfl

/-- Witness for C9: duration-0 fresh run on the default session, then a
refused continuation. -/
theorem c9_zero_clock_refuses_continuation_witness :
    (simuF mdW BW "init" 0 (defaultSessionF K0)).outcome =
      FOutcome.ok (resW 0 0) ∧
    (simuF mdW BW "init" 0 (defaultSessionF K0)).state.prevFinalTime =
      some 0 ∧
    simuF mdW BW "cont" 60
        (simuF mdW BW "init" 0 (defaultSessionF K0)).state =
      ⟨(simuF mdW BW "init" 0 (defaultSessionF K0)).state, [],
        [RunMsg.ordering, RunMsg.noSim], FOutcome.finished⟩ :=
  c9_zero_clock_refuses_continuation mdW BW BW K0 60
    ((freshStartValues (defaultSessionF K0)).getD []) (resW 0 0)
    (by decide) rfl (by decide) (by decide)

/-- C8: with the default registry values and a well-behaved backend,
`simu(init, 60)` invokes the backend over `[0, 60]`, hands back a time
series spanning `[0, 60]`, captures a numeric (non-null) value for every
state variable, and sets the clock to 60; the following `simu(cont, 60)`
invokes the backend over `[60, 120]`, hands back a series spanning
`[60, 120]`, and leaves the clock at 120. -/
theorem c8_end_to_end_default_session
    (md : List VarMeta) (B : FBackend) (K : List String)
    (hB : GoodBackend md K B)
    (htot : ∀ k ∈ K, (stateDictInitialKey k).isSome)
    (hinj : ∀ j ∈ K, ∀ k ∈ K,
        stateDictInitialKey j = stateDictInitialKey k → j = k) :
    ∃ sv₀ res₁ sv₁ res₂,
      (simuF md B "init" 60 (defaultSessionF K)).calls = [(0, 60, sv₀)] ∧
      (simuF md B "init" 60 (defaultSessionF K)).outcome = FOutcome.ok res₁ ∧
      timeHead res₁ = some 0 ∧ timeLast res₁ = some 60 ∧
      (∀ k ∈ K, ∃ x,
        dget (simuF md B "init" 60 (defaultSessionF K)).state.stateDict k =
          some (Value.num x)) ∧
      (simuF md B "init" 60 (defaultSessionF K)).state.prevFinalTime =
        some 60 ∧
      (simuF md B "cont" 60
        (simuF md B "init" 60 (defaultSessionF K)).state).calls =
        [(60, 120, sv₁)] ∧
      (simuF md B "cont" 60
        (simuF md B "init" 60 (defaultSessionF K)).state).outcome =
        FOutcome.ok res₂ ∧
      timeHead res₂ = some 60 ∧ timeLast res₂ = some 120 ∧
      (simuF md B "cont" 60
        (simuF md B "init" 60
          (defaultSessionF K)).state).state.prevFinalTime = some 120 := by
  have h6 : (60 : ℚ) + 60 = 120 := by norm_num
  obtain ⟨sv₀, hsv₀⟩ := resolveList_some parDictF parLocationF
    (dkeys parDictF) (by decide)
  have hsvF : freshStartValues (defaultSessionF K) = some sv₀ := hsv₀
  obtain ⟨res₁, hrun₁, hth₁, htl₁, hmg₁⟩ := hB 0 60 sv₀
  have hkeys0 : keysOf (defaultSessionF K).stateDict = K :=
    keysOf_map_pair (fun _ => Value.noneV) K
  have hcapmem : ∀ kv ∈ (defaultSessionF K).stateDict,
      (model_get md res₁ sv₀ kv.1).isSome := by
    intro kv hkv
    have hk1 : kv.1 ∈ K := by
      rw [← hkeys0]
      exact List.mem_map.mpr ⟨kv, hkv, rfl⟩
    obtain ⟨x, hx⟩ := hmg₁ kv.1 hk1
    rw [hx]
    rfl
  have hcap₁ : (captureStates md res₁ sv₀
      (defaultSessionF K).stateDict).2 = false :=
    captureStates_nocrash md res₁ sv₀ _ hcapmem
  have heq₁ := simuF_init_eq md B 60 (defaultSessionF K) sv₀ res₁ 60 hsvF
    hrun₁ hcap₁ htl₁
  set s₁ : SessionF :=
    { defaultSessionF K with
        stateDict :=
          (captureStates md res₁ sv₀ (defaultSessionF K).stateDict).1,
        prevFinalTime := some 60 }
  have hnn : ∀ k ∈ K, ∃ x, dget s₁.stateDict k = some (Value.num x) := by
    intro k hk
    obtain ⟨x, hx⟩ := hmg₁ k hk
    refine ⟨x, ?_⟩
    show dget (captureStates md res₁ sv₀ (defaultSessionF K).stateDict).1 k = _
    rw [dget_captureStates md res₁ sv₀ _ hcapmem k (by rw [hkeys0]; exact hk),
      hx]
  have hkeys₁ : dkeys s₁.stateDict = dkeys (defaultSessionF K).stateDict := by
    show dkeys (captureStates md res₁ sv₀ (defaultSessionF K).stateDict).1 = _
    have hk := captureStates_keys md res₁ sv₀ (defaultSessionF K).stateDict
    unfold keysOf at hk
    unfold dkeys
    rw [hk]
  have hmemK : ∀ k, k ∈ dkeys s₁.stateDict → k ∈ K := by
    intro k hk
    rw [hkeys₁] at hk
    have hm := mem_dkeys.mp hk
    rw [hkeys0] at hm
    exact hm
  have hresF : allResolvable parDictF parLocationF = true := by decide
  have hres₁ : allResolvable s₁.parDict s₁.parLocation = true := hresF
  have htot₁ : ∀ k ∈ dkeys s₁.stateDict, (stateDictInitialKey k).isSome :=
    fun k hk => htot k (hmemK k hk)
  have hinj₁ : ∀ j ∈ dkeys s₁.stateDict, ∀ k ∈ dkeys s₁.stateDict,
      stateDictInitialKey j = stateDictInitialKey k → j = k :=
    fun j hj k hk h => hinj j (hmemK j hj) k (hmemK k hk) h
  obtain ⟨sv₁, hsv₁, hprop⟩ := contStartValues_spec s₁ hres₁ htot₁ hinj₁
  obtain ⟨res₂, hrun₂, hth₂, htl₂, hmg₂⟩ := hB 60 (60 + 60) sv₁
  have hcapmem₂ : ∀ kv ∈ s₁.stateDict,
      (model_get md res₂ sv₁ kv.1).isSome := by
    intro kv hkv
    have hk1 : kv.1 ∈ K := by
      apply hmemK
      apply mem_dkeys.mpr
      exact List.mem_map.mpr ⟨kv, hkv, rfl⟩
    obtain ⟨x, hx⟩ := hmg₂ kv.1 hk1
    rw [hx]
    rfl
  have hcap₂ := captureStates_nocrash md res₂ sv₁ _ hcapmem₂
  have heq₂ := simuF_cont_eq md B 60 s₁ 60 sv₁ res₂ (60 + 60) rfl
    (by norm_num) hsv₁ hrun₂ hcap₂ htl₂
  rw [h6] at htl₂
  refine ⟨sv₀, res₁, sv₁, res₂, ?_, ?_, hth₁, htl₁, ?_, ?_, ?_, ?_, hth₂,
    htl₂, ?_⟩
  · rw [heq₁]
  · rw [heq₁]
  · rw [heq₁]
    exact hnn
  · rw [heq₁]
  · rw [heq₁]
    have hc : (simuF md B "cont" 60 s₁).calls = [(60, 60 + 60, sv₁)] := by
      rw [heq₂]
    rw [h6] at hc
    exact hc
  · rw [heq₁]
    have hc : (simuF md B "cont" 60 s₁).outcome = FOutcome.ok res₂ := by
      rw [heq₂]
    exact hc
  · rw [heq₁]
    have hc : (simuF md B "cont" 60 s₁).state.prevFinalTime =
        some (60 + 60) := by
      rw [heq₂]
    rw [h6] at hc
    exact hc

/-- Witness for C8: the default fmpy session with two mass states and a
concrete well-behaved backend. -/
theorem c8_end_to_end_default_session_witness :
    ∃ sv₀ res₁ sv₁ res₂,
      (simuF mdW BW "init" 60 (defaultSessionF K0)).calls = [(0, 60, sv₀)] ∧
      (simuF mdW BW "init" 60 (defaultSessionF K0)).outcome =
        FOutcome.ok res₁ ∧
      timeHead res₁ = some 0 ∧ timeLast res₁ = some 60 ∧
      (∀ k ∈ K0, ∃ x,
        dget (simuF mdW BW "init" 60 (defaultSessionF K0)).state.stateDict k =
          some (Value.num x)) ∧
      (simuF mdW BW "init" 60 (defaultSessionF K0)).state.prevFinalTime =
        some 60 ∧
      (simuF mdW BW "cont" 60
        (simuF mdW BW "init" 60 (defaultSessionF K0)).state).calls =
        [(60, 120, sv₁)] ∧
      (simuF mdW BW "cont" 60
        (simuF mdW BW "init" 60 (defaultSessionF K0)).state).outcome =
        FOutcome.ok res₂ ∧
      timeHead res₂ = some 60 ∧ timeLast res₂ = some 120 ∧
      (simuF mdW BW "cont" 60
        (simuF mdW BW "init" 60
          (defaultSessionF K0)).state).state.prevFinalTime = some 120 :=
  c8_end_to_end_default_session mdW BW K0
    (by
      intro a b sv
      refine ⟨resW a b, rfl, rfl, rfl, ?_⟩
      intro k hk
      have hk' : k = "bioreactor.m[1]" ∨ k = "bioreactor.m[2]" := by
        simpa [K0] using hk
      rcases hk' with rfl | rfl
      · exact ⟨1, rfl⟩
      · exact ⟨3, rfl⟩)
    (by decide) (by decide)
